import Mathlib

/-!
Heat-map point sampling of `script.js`.

A shallow embedding of the `sourceImage.onload` handler of `src/script.js`
(lines 47-121) and of the click handler that installs it (lines 12-136).

* The handler is given in two readings. In `innerLoop`, `outerLoop`, `sample` and
  `onload` the numbers are read over exact arithmetic: array lengths and loop
  indices are natural numbers, matrix entries are integers, scale factors are
  rationals. This is the reading of the statements about the stride, the cells
  visited, the values, termination and the bounds of the overlay. In
  `innerLoopJs`, `outerLoopJs`, `sampleJs` and `onloadJs` the products, quotients
  and differences are IEEE 754 doubles, as the engine computes them. This is the
  reading of the statements about the coordinates of the points and about scale
  factors that are not positive finite numbers.
* The two `for` loops are embedded with a fuel argument that bounds the number
  of loop tests; running out of fuel is the outcome `timeout`.
* The click handler and the image callbacks are embedded as a transition
  function on the state of the page.
-/

namespace InertiaHeatmap

/-! ## Data model -/

/-- An entry of the `points` array pushed at lines 104-108. -/
structure Point where
  x : Int
  y : Int
  value : Int
deriving DecidableEq, Repr

/-- The value of `data.heatmap_data` (line 40): an array of arrays of integers. -/
abbrev Matrix := List (List Int)

/-- Exceptions of the script. The engine raises `TypeError` when a property of
`undefined` is read; `error` is the `throw new Error(..)` of line 36. -/
inductive JsException where
  | typeError
  | error (message : String)
deriving DecidableEq, Repr

/-- The `name` property of the exception object. -/
def JsException.name : JsException → String
  | JsException.typeError => "TypeError"
  | JsException.error _ => "Error"

/-- How a run of lines 79-117 ends: `ok points` when `setData` (line 113) is
reached with `points`, `threw e` when an exception leaves the handler, and
`timeout` when the fuel is used up before the loops are left. -/
inductive Outcome where
  | ok (points : List Point)
  | threw (e : JsException)
  | timeout
deriving DecidableEq, Repr

/-- The run ended with an exception whose name is `errorName`. -/
def Outcome.failsWith (o : Outcome) (errorName : String) : Bool :=
  match o with
  | Outcome.threw e => e.name == errorName
  | _ => false

/-- The data handed to the renderer by `setData`, if the call is reached. -/
def Outcome.dataset (o : Outcome) : Option (List Point) :=
  match o with
  | Outcome.ok points => some points
  | _ => none

/-! ## The stride (lines 84-85) -/

/-- The value of `Math.ceil(Math.sqrt(n / d))` over exact arithmetic, computed
on naturals: `q` is `n / d` rounded up and `r` the integer square root of `q`
(see `ceilSqrtDiv_eq_ceil_sqrt` for the agreement with the real expression). -/
def ceilSqrtDiv (n d : Nat) : Nat :=
  let q := (n + d - 1) / d
  let r := Nat.sqrt q
  if r * r = q then r else r + 1

/-- Lines 84-85 for a matrix of `rowCount` rows whose first row has
`columnCount` entries. -/
def stepOf (rowCount columnCount : Nat) : Nat :=
  let totalPixels := rowCount * columnCount
  ceilSqrtDiv totalPixels 5000

/-! ## The sampling loops (lines 94-111) -/

/-- The inner loop `for (let x = ..; x < heatmapMatrix[y].length; x += step)`
of lines 95-110 on the row `row = heatmapMatrix[y]`, started at index `x` with
the points accumulated so far, over exact arithmetic (`innerLoopJs` is the loop
in double arithmetic). One unit of fuel is used per loop test. -/
def innerLoop (row : List Int) (step : Nat) (scaleX scaleY : ℚ) (y : Nat) :
    Nat → Nat → List Point → Option (List Point)
  | 0, _, _ => none
  | fuel + 1, x, points =>
    if h : x < row.length then
      let originalVal := row.get ⟨x, h⟩
      let val := 255 - originalVal
      if val > 10 then
        innerLoop row step scaleX scaleY y fuel (x + step)
          (points ++ [{ x := ⌊(x : ℚ) * scaleX⌋, y := ⌊(y : ℚ) * scaleY⌋, value := val }])
      else
        innerLoop row step scaleX scaleY y fuel (x + step) points
    else
      some points

/-- The outer loop `for (let y = ..; y < heatmapMatrix.length; y += step)` of
lines 94-111, started at index `y`. Every run of the inner loop gets
`innerFuel`; one unit of `fuel` is used per test of the outer loop. -/
def outerLoop (heatmapMatrix : Matrix) (step : Nat) (scaleX scaleY : ℚ) (innerFuel : Nat) :
    Nat → Nat → List Point → Option (List Point)
  | 0, _, _ => none
  | fuel + 1, y, points =>
    if h : y < heatmapMatrix.length then
      match innerLoop (heatmapMatrix.get ⟨y, h⟩) step scaleX scaleY y innerFuel 0 points with
      | none => none
      | some points1 =>
        outerLoop heatmapMatrix step scaleX scaleY innerFuel fuel (y + step) points1
    else
      some points

/-- Lines 79-111 for given scale factors. Reading `heatmapMatrix[0].length` on
the empty array raises the engine's `TypeError` (line 84); otherwise the stride
is computed from the length of the first row and the loops are run from
`y = 0` with `points = []`. -/
def sample (heatmapMatrix : Matrix) (scaleX scaleY : ℚ) (fuel : Nat) : Outcome :=
  match heatmapMatrix with
  | [] => Outcome.threw JsException.typeError
  | row0 :: _ =>
    let step := stepOf heatmapMatrix.length row0.length
    match outerLoop heatmapMatrix step scaleX scaleY fuel fuel 0 [] with
    | none => Outcome.timeout
    | some points => Outcome.ok points

/-- The handler of lines 47-121 as far as the data goes, over exact arithmetic:
the scale factors of lines 76-77 are the quotients of the displayed and the
natural dimensions read as exact rationals, for natural dimensions that are not
zero (`onloadJs` is the handler in double arithmetic, where a natural dimension
of zero gives a scale factor that is not finite). -/
def onload (heatmapMatrix : Matrix)
    (displayWidth displayHeight naturalWidth naturalHeight : Nat) (fuel : Nat) : Outcome :=
  let scaleX : ℚ := (displayWidth : ℚ) / (naturalWidth : ℚ)
  let scaleY : ℚ := (displayHeight : ℚ) / (naturalHeight : ℚ)
  sample heatmapMatrix scaleX scaleY fuel

/-! ## Reference lists -/

/-- The indices `0, step, 2*step, ...` below `n`, in ascending order. -/
def strideIndices (n step : Nat) : List Nat :=
  (List.range ((n + step - 1) / step)).map (fun k => k * step)

/-- The point of the entry `x` of the row `y`, if its inverted value passes the
threshold of line 103. -/
def rowPoint (row : List Int) (scaleX scaleY : ℚ) (y x : Nat) : Option Point :=
  let val := 255 - row.getD x 0
  if val > 10 then
    some { x := ⌊(x : ℚ) * scaleX⌋, y := ⌊(y : ℚ) * scaleY⌋, value := val }
  else
    none

/-- The point of the cell `(y, x)` of the matrix, if there is one. -/
def cellPoint (heatmapMatrix : Matrix) (scaleX scaleY : ℚ) (y x : Nat) : Option Point :=
  rowPoint (heatmapMatrix.getD y []) scaleX scaleY y x

/-- The reference list for a matrix with `columnCount` columns: rows at the
stride in ascending order, within a row the columns at the stride in ascending
order, keeping the cells that pass the threshold. -/
def referencePoints (heatmapMatrix : Matrix) (columnCount step : Nat) (scaleX scaleY : ℚ) :
    List Point :=
  (strideIndices heatmapMatrix.length step).flatMap fun y =>
    (strideIndices columnCount step).filterMap (cellPoint heatmapMatrix scaleX scaleY y)

/-- The same scan where every row is read up to its own length. -/
def scanPoints (heatmapMatrix : Matrix) (step : Nat) (scaleX scaleY : ℚ) : List Point :=
  (strideIndices heatmapMatrix.length step).flatMap fun y =>
    (strideIndices (heatmapMatrix.getD y []).length step).filterMap
      (cellPoint heatmapMatrix scaleX scaleY y)

/-- All rows of the matrix have `columnCount` entries. -/
def Rectangular (heatmapMatrix : Matrix) (columnCount : Nat) : Prop :=
  ∀ row ∈ heatmapMatrix, row.length = columnCount

instance Rectangular.decidable (heatmapMatrix : Matrix) (columnCount : Nat) :
    Decidable (Rectangular heatmapMatrix columnCount) :=
  inferInstanceAs (Decidable (∀ row ∈ heatmapMatrix, row.length = columnCount))

/-- The matrix of `rowCount` rows of `columnCount` zeros. -/
def zeros (rowCount columnCount : Nat) : Matrix :=
  List.replicate rowCount (List.replicate columnCount 0)

/-! ## Double arithmetic (lines 76-77, 100, 105-106)

JavaScript numbers are IEEE 754 binary64 values. The definitions below give the
sampling loops with the arithmetic of the engine: every product, quotient and
difference is rounded to the nearest double, ties to the even significand. The
loop indices and the stride are naturals, as in the reading above (they are exact
in doubles below `2^53`). -/

/-- Rounding of a rational to the nearest integer, a tie going to the even one. -/
def roundHalfEven (q : ℚ) : ℤ :=
  let f := ⌊q⌋
  let r := q - f
  if r < 1 / 2 then f else if 1 / 2 < r then f + 1 else if f % 2 = 0 then f else f + 1

/-- A JavaScript number: a finite double, given by the rational it denotes (the
two zeros, equal under `===`, are not told apart), an infinity or `NaN`. -/
inductive JsNumber where
  | finite (q : ℚ)
  | posInf
  | negInf
  | nan
deriving DecidableEq, Repr

/-- The exponent of the spacing of the doubles at `q`: 52 below the binary
exponent of `q`, which is not taken below `-1022` (subnormal range). -/
def ulpExponent (q : ℚ) : ℤ :=
  max (Int.log 2 |q|) (-1022) - 52

/-- The double nearest to the rational `q` (ties to even): `q` is rounded to a
multiple of the spacing at `q`; a result of magnitude `2^1024` or more is an
infinity. -/
def roundDouble (q : ℚ) : JsNumber :=
  let r : ℚ := (roundHalfEven (q / (2 : ℚ) ^ ulpExponent q) : ℚ) * (2 : ℚ) ^ ulpExponent q
  if (2 : ℚ) ^ (1024 : ℕ) ≤ r then JsNumber.posInf
  else if r ≤ -(2 : ℚ) ^ (1024 : ℕ) then JsNumber.negInf
  else JsNumber.finite r

/-- The quotient `a / b` of lines 76-77 for two dimensions of the image element
(unsigned integers): `0 / 0` is `NaN` and `a / 0` is `Infinity` for `a > 0`. -/
def JsNumber.ofQuotient (a b : Nat) : JsNumber :=
  if b = 0 then
    if a = 0 then JsNumber.nan else JsNumber.posInf
  else
    roundDouble ((a : ℚ) / (b : ℚ))

/-- The product `i * s` of lines 105-106 for a loop index `i`: `0 * Infinity` is
`NaN`. -/
def JsNumber.mulIndex (i : Nat) : JsNumber → JsNumber
  | JsNumber.finite q => roundDouble ((i : ℚ) * q)
  | JsNumber.posInf => if i = 0 then JsNumber.nan else JsNumber.posInf
  | JsNumber.negInf => if i = 0 then JsNumber.nan else JsNumber.negInf
  | JsNumber.nan => JsNumber.nan

/-- The function `Math.floor`. -/
def JsNumber.floor : JsNumber → JsNumber
  | JsNumber.finite q => JsNumber.finite ((⌊q⌋ : ℤ) : ℚ)
  | JsNumber.posInf => JsNumber.posInf
  | JsNumber.negInf => JsNumber.negInf
  | JsNumber.nan => JsNumber.nan

/-- The comparison `a > bound` for a finite `bound`; it is false on `NaN`. -/
def JsNumber.exceeds : JsNumber → ℚ → Bool
  | JsNumber.finite q, bound => decide (bound < q)
  | JsNumber.posInf, _ => true
  | JsNumber.negInf, _ => false
  | JsNumber.nan, _ => false

/-- The number is finite and greater than zero. -/
def JsNumber.isPositiveFinite : JsNumber → Bool
  | JsNumber.finite q => decide (0 < q)
  | _ => false

/-- The double nearest to `1 / 3`: the scale factor of line 76 for an image
three pixels wide that is shown one pixel wide. -/
def thirdDouble : ℚ := 6004799503160661 / 18014398509481984

/-- An entry of the `points` array with its three numbers as doubles. -/
structure JsPoint where
  x : JsNumber
  y : JsNumber
  value : JsNumber
deriving DecidableEq, Repr

/-- The point of the exact reading with its numbers as JavaScript numbers. -/
def Point.toJs (p : Point) : JsPoint :=
  { x := JsNumber.finite (p.x : ℚ), y := JsNumber.finite (p.y : ℚ),
    value := JsNumber.finite (p.value : ℚ) }

/-- How a run of lines 79-117 ends in double arithmetic. -/
inductive JsOutcome where
  | ok (points : List JsPoint)
  | threw (e : JsException)
  | timeout
deriving DecidableEq, Repr

/-- The inner loop of lines 95-110 in double arithmetic: `val` is the rounded
difference `255 - originalVal`, the coordinates are `Math.floor` of the rounded
products. -/
def innerLoopJs (row : List Int) (step : Nat) (scaleX scaleY : JsNumber) (y : Nat) :
    Nat → Nat → List JsPoint → Option (List JsPoint)
  | 0, _, _ => none
  | fuel + 1, x, points =>
    if h : x < row.length then
      let originalVal := row.get ⟨x, h⟩
      let val := roundDouble (255 - (originalVal : ℚ))
      if val.exceeds 10 then
        innerLoopJs row step scaleX scaleY y fuel (x + step)
          (points ++ [{ x := (JsNumber.mulIndex x scaleX).floor,
                        y := (JsNumber.mulIndex y scaleY).floor, value := val }])
      else
        innerLoopJs row step scaleX scaleY y fuel (x + step) points
    else
      some points

/-- The outer loop of lines 94-111 in double arithmetic. -/
def outerLoopJs (heatmapMatrix : Matrix) (step : Nat) (scaleX scaleY : JsNumber)
    (innerFuel : Nat) : Nat → Nat → List JsPoint → Option (List JsPoint)
  | 0, _, _ => none
  | fuel + 1, y, points =>
    if h : y < heatmapMatrix.length then
      match innerLoopJs (heatmapMatrix.get ⟨y, h⟩) step scaleX scaleY y innerFuel 0 points with
      | none => none
      | some points1 =>
        outerLoopJs heatmapMatrix step scaleX scaleY innerFuel fuel (y + step) points1
    else
      some points

/-- Lines 79-111 in double arithmetic for given scale factors. The stride is
that of `stepOf`, read over exact arithmetic. -/
def sampleJs (heatmapMatrix : Matrix) (scaleX scaleY : JsNumber) (fuel : Nat) : JsOutcome :=
  match heatmapMatrix with
  | [] => JsOutcome.threw JsException.typeError
  | row0 :: _ =>
    let step := stepOf heatmapMatrix.length row0.length
    match outerLoopJs heatmapMatrix step scaleX scaleY fuel fuel 0 [] with
    | none => JsOutcome.timeout
    | some points => JsOutcome.ok points

/-- The handler of lines 47-121 in double arithmetic: the scale factors of lines
76-77 are the double quotients of the dimensions, not finite when a natural
dimension is zero. -/
def onloadJs (heatmapMatrix : Matrix)
    (displayWidth displayHeight naturalWidth naturalHeight : Nat) (fuel : Nat) : JsOutcome :=
  let scaleX := JsNumber.ofQuotient displayWidth naturalWidth
  let scaleY := JsNumber.ofQuotient displayHeight naturalHeight
  sampleJs heatmapMatrix scaleX scaleY fuel

/-- The strided scan of a grid of `rowCount` by `columnCount` cells: rows at the
stride in ascending order, within a row the columns at the stride in ascending
order, keeping the cells for which `cell y x` gives a point. -/
def stridedScan {α : Type} (rowCount columnCount step : Nat) (cell : Nat → Nat → Option α) :
    List α :=
  (strideIndices rowCount step).flatMap fun y =>
    (strideIndices columnCount step).filterMap (cell y)

/-- The point that the loop body pushes for the entry `x` of the row `y`, if
any, in double arithmetic. -/
def rowPointJs (row : List Int) (scaleX scaleY : JsNumber) (y x : Nat) : Option JsPoint :=
  let val := roundDouble (255 - ((row.getD x 0 : ℤ) : ℚ))
  if val.exceeds 10 then
    some { x := (JsNumber.mulIndex x scaleX).floor, y := (JsNumber.mulIndex y scaleY).floor,
           value := val }
  else
    none

/-- The point that the loop body pushes for the cell `(y, x)`, if any. -/
def cellPointJs (heatmapMatrix : Matrix) (scaleX scaleY : JsNumber) (y x : Nat) :
    Option JsPoint :=
  rowPointJs (heatmapMatrix.getD y []) scaleX scaleY y x

/-- The point of the cell `(y, x)` with the value and the threshold test over
the integers and the coordinates in double arithmetic. -/
def cellPointFloorJs (heatmapMatrix : Matrix) (scaleX scaleY : JsNumber) (y x : Nat) :
    Option JsPoint :=
  let val : ℤ := 255 - (heatmapMatrix.getD y []).getD x 0
  if val > 10 then
    some { x := (JsNumber.mulIndex x scaleX).floor, y := (JsNumber.mulIndex y scaleY).floor,
           value := JsNumber.finite (val : ℚ) }
  else
    none

/-! ## The page (lines 12-136) -/

/-- The state of the page: whether `analyzeBtn.disabled` is set, how many
`fetch` requests are awaited, the matrix captured by the installed image
handlers while the load of `sourceImage` is awaited, and whether the page is
stuck inside a handler that does not return. -/
structure Ui where
  disabled : Bool
  pendingRequests : Nat
  pendingImage : Option Matrix
  hung : Bool
deriving DecidableEq, Repr

/-- The events of the page. `click` carries the trimmed value of the input
(line 13); `requestFailed` stands for every way into the `catch` block
(rejected `fetch`, response not ok, body that is not JSON). -/
inductive Event where
  | click (imageUrl : String)
  | requestFailed
  | requestSucceeded (heatmapMatrix : Matrix)
  | imageLoaded (displayWidth displayHeight naturalWidth naturalHeight : Nat)
  | imageError
deriving DecidableEq, Repr

/-- The page after `DOMContentLoaded`. -/
def Ui.init : Ui :=
  { disabled := false, pendingRequests := 0, pendingImage := none, hung := false }

/-- The number of analyses started and not yet completed. -/
def Ui.inFlight (s : Ui) : Nat :=
  s.pendingRequests + (if s.pendingImage.isSome then 1 else 0)

/-- Fuel that suffices for the loops on the matrix whenever the stride is
positive (see `sample_eq_scanPoints`). -/
def loopFuel (heatmapMatrix : Matrix) : Nat :=
  heatmapMatrix.length + (heatmapMatrix.map List.length).sum + 1

/-- One event of the page. A disabled button dispatches no click; a click with
an empty trimmed URL returns at line 16; otherwise line 22 disables the button
and the request is sent. The `catch` block and `onerror` enable the button
(lines 134, 125); `onload` enables it at line 120, which is reached only when
the loops are left normally. -/
def handle (s : Ui) : Event → Ui
  | Event.click imageUrl =>
    if s.hung || s.disabled then s
    else if imageUrl = "" then s
    else { s with disabled := true, pendingRequests := s.pendingRequests + 1 }
  | Event.requestFailed =>
    if s.hung || s.pendingRequests = 0 then s
    else { s with disabled := false, pendingRequests := s.pendingRequests - 1 }
  | Event.requestSucceeded heatmapMatrix =>
    if s.hung || s.pendingRequests = 0 then s
    else { s with pendingRequests := s.pendingRequests - 1, pendingImage := some heatmapMatrix }
  | Event.imageLoaded displayWidth displayHeight naturalWidth naturalHeight =>
    if s.hung then s
    else
      match s.pendingImage with
      | none => s
      | some heatmapMatrix =>
        match onload heatmapMatrix displayWidth displayHeight naturalWidth naturalHeight
            (loopFuel heatmapMatrix) with
        | Outcome.ok _ => { s with disabled := false, pendingImage := none }
        | Outcome.threw _ => { s with pendingImage := none }
        | Outcome.timeout => { s with hung := true }
  | Event.imageError =>
    if s.hung then s
    else
      match s.pendingImage with
      | none => s
      | some _ => { s with disabled := false, pendingImage := none }

/-- The page after a sequence of events. -/
def run (s : Ui) (events : List Event) : Ui :=
  events.foldl handle s


/-! ## The stride -/

/-- Rounding `n / d` up: `(n + d - 1) / d ≤ m` exactly when `n ≤ d * m`. -/
theorem ceilDiv_le_iff {n d : Nat} (hd : 0 < d) (m : Nat) :
    (n + d - 1) / d ≤ m ↔ n ≤ d * m := by
  rw [← Nat.lt_succ_iff, Nat.div_lt_iff_lt_mul hd, Nat.succ_mul, Nat.mul_comm m d]
  omega

/-- The least natural whose square reaches `q`, from the integer square root. -/
theorem sqrtUp_le_iff (q s : Nat) :
    (if Nat.sqrt q * Nat.sqrt q = q then Nat.sqrt q else Nat.sqrt q + 1) ≤ s ↔ q ≤ s * s := by
  have hlo : Nat.sqrt q * Nat.sqrt q ≤ q := Nat.sqrt_le q
  have hhi : q < (Nat.sqrt q + 1) * (Nat.sqrt q + 1) := Nat.lt_succ_sqrt q
  split_ifs with h
  · constructor
    · intro hs
      calc q = Nat.sqrt q * Nat.sqrt q := h.symm
        _ ≤ s * s := Nat.mul_le_mul hs hs
    · intro hq
      rw [← h] at hq
      exact Nat.mul_self_le_mul_self_iff.mp hq
  · constructor
    · intro hs
      exact le_of_lt (lt_of_lt_of_le hhi (Nat.mul_le_mul hs hs))
    · intro hq
      by_contra hlt
      have hle : s ≤ Nat.sqrt q := by omega
      have : s * s ≤ Nat.sqrt q * Nat.sqrt q := Nat.mul_le_mul hle hle
      omega

/-- The stride is below `s` exactly when `d * s^2` reaches `n`. -/
theorem ceilSqrtDiv_le_iff {n d : Nat} (hd : 0 < d) (s : Nat) :
    ceilSqrtDiv n d ≤ s ↔ n ≤ d * (s * s) := by
  unfold ceilSqrtDiv
  simp only []
  rw [sqrtUp_le_iff, ceilDiv_le_iff hd]

/-- Agreement of `ceilSqrtDiv` with `Math.ceil(Math.sqrt(n / d))` over the reals. -/
theorem ceilSqrtDiv_eq_ceil_sqrt {n d : Nat} (hd : 0 < d) :
    ceilSqrtDiv n d = ⌈Real.sqrt ((n : ℝ) / (d : ℝ))⌉₊ := by
  have hd' : (0 : ℝ) < (d : ℝ) := by exact_mod_cast hd
  have key : ∀ s : Nat, ⌈Real.sqrt ((n : ℝ) / (d : ℝ))⌉₊ ≤ s ↔ n ≤ d * (s * s) := by
    intro s
    rw [Nat.ceil_le, Real.sqrt_le_left (Nat.cast_nonneg s), div_le_iff₀ hd']
    constructor
    · intro h
      have h2 : ((n : ℕ) : ℝ) ≤ ((d * (s * s) : ℕ) : ℝ) := by
        push_cast
        nlinarith
      exact_mod_cast h2
    · intro h
      have h2 : ((n : ℕ) : ℝ) ≤ ((d * (s * s) : ℕ) : ℝ) := by exact_mod_cast h
      push_cast at h2
      nlinarith
  apply le_antisymm
  · exact (ceilSqrtDiv_le_iff hd _).mpr ((key _).mp le_rfl)
  · exact (key _).mpr ((ceilSqrtDiv_le_iff hd _).mp le_rfl)

/-- The stride is positive exactly when there is at least one cell. -/
theorem ceilSqrtDiv_pos_iff {n d : Nat} (hd : 0 < d) : 0 < ceilSqrtDiv n d ↔ 0 < n := by
  have h := ceilSqrtDiv_le_iff (n := n) hd 0
  simp only [Nat.mul_zero, Nat.le_zero] at h
  omega


/-- The stride of lines 84-85 is positive exactly when there is a cell. -/
theorem stepOf_pos_iff (rowCount columnCount : Nat) :
    0 < stepOf rowCount columnCount ↔ 0 < rowCount * columnCount := by
  unfold stepOf
  exact ceilSqrtDiv_pos_iff (by decide)

/-- The stride of lines 84-85 is below `s` exactly when `5000 * s^2` reaches the
number of cells. -/
theorem stepOf_le_iff (rowCount columnCount s : Nat) :
    stepOf rowCount columnCount ≤ s ↔ rowCount * columnCount ≤ 5000 * (s * s) := by
  unfold stepOf
  exact ceilSqrtDiv_le_iff (by decide) s

/-- The stride from its two bounds. -/
theorem stepOf_eq_succ (rowCount columnCount s : Nat)
    (hlo : 5000 * (s * s) < rowCount * columnCount)
    (hhi : rowCount * columnCount ≤ 5000 * ((s + 1) * (s + 1))) :
    stepOf rowCount columnCount = s + 1 := by
  apply le_antisymm
  · exact (stepOf_le_iff _ _ _).mpr hhi
  · by_contra hlt
    have hle : stepOf rowCount columnCount ≤ s := by omega
    have := (stepOf_le_iff _ _ _).mp hle
    omega

/-! ## The loops -/

/-- An index `j * step` is below `n` exactly when `j` is below `n / step` rounded up. -/
theorem stride_lt_iff {n step : Nat} (hs : 0 < step) (j : Nat) :
    j < (n + step - 1) / step ↔ j * step < n := by
  rw [Nat.lt_iff_add_one_le, Nat.le_div_iff_mul_le hs, Nat.add_mul]
  omega

/-- With a positive stride the inner loop, started at the index `j * step` with
more fuel than indices left, appends the points of the remaining indices. -/
theorem innerLoop_eq (row : List Int) (step : Nat) (hs : 0 < step) (scaleX scaleY : ℚ) (y : Nat) :
    ∀ (d j fuel : Nat) (points : List Point),
      j + d = (row.length + step - 1) / step → d < fuel →
      innerLoop row step scaleX scaleY y fuel (j * step) points =
        some (points ++ ((List.range' j d).map (fun k => k * step)).filterMap
          (rowPoint row scaleX scaleY y)) := by
  intro d
  induction d with
  | zero =>
    intro j fuel points hj hf
    obtain ⟨f, rfl⟩ : ∃ f, fuel = f + 1 := ⟨fuel - 1, by omega⟩
    have hnot : ¬ j * step < row.length := by
      rw [← stride_lt_iff hs]
      omega
    simp [innerLoop, hnot]
  | succ d ih =>
    intro j fuel points hj hf
    obtain ⟨f, rfl⟩ : ∃ f, fuel = f + 1 := ⟨fuel - 1, by omega⟩
    have hlt : j * step < row.length := by
      rw [← stride_lt_iff hs]
      omega
    have hnext : j * step + step = (j + 1) * step := by rw [Nat.add_mul, Nat.one_mul]
    have hget : row.get ⟨j * step, hlt⟩ = row.getD (j * step) 0 := by
      simp [List.getD_eq_getElem?_getD, List.getElem?_eq_getElem hlt]
    rw [innerLoop, dif_pos hlt, hget, hnext, List.range'_succ, List.map_cons,
      List.filterMap_cons]
    by_cases hv : 255 - row.getD (j * step) 0 > 10
    · simp only [hv, if_true, rowPoint]
      rw [ih (j + 1) f _ (by omega) (by omega)]
      simp [rowPoint]
    · simp only [hv, if_false, rowPoint]
      rw [ih (j + 1) f _ (by omega) (by omega)]

/-- The inner loop from `x = 0`. -/
theorem innerLoop_zero (row : List Int) (step : Nat) (hs : 0 < step) (scaleX scaleY : ℚ)
    (y fuel : Nat) (points : List Point) (hf : row.length < fuel) :
    innerLoop row step scaleX scaleY y fuel 0 points =
      some (points ++ (strideIndices row.length step).filterMap (rowPoint row scaleX scaleY y)) := by
  have hk : (row.length + step - 1) / step ≤ row.length := by
    rw [ceilDiv_le_iff hs]
    exact Nat.le_mul_of_pos_left _ hs
  have h := innerLoop_eq row step hs scaleX scaleY y ((row.length + step - 1) / step) 0 fuel
    points (by omega) (by omega)
  rw [Nat.zero_mul] at h
  rw [h, strideIndices, List.range_eq_range']

/-- With a positive stride the outer loop, started at the row `j * step` with
more fuel than rows left, appends the points of the remaining rows. -/
theorem outerLoop_eq (heatmapMatrix : Matrix) (step : Nat) (hs : 0 < step) (scaleX scaleY : ℚ)
    (innerFuel : Nat) (hin : ∀ row ∈ heatmapMatrix, row.length < innerFuel) :
    ∀ (d j fuel : Nat) (points : List Point),
      j + d = (heatmapMatrix.length + step - 1) / step → d < fuel →
      outerLoop heatmapMatrix step scaleX scaleY innerFuel fuel (j * step) points =
        some (points ++ ((List.range' j d).map (fun k => k * step)).flatMap fun y =>
          (strideIndices (heatmapMatrix.getD y []).length step).filterMap
            (cellPoint heatmapMatrix scaleX scaleY y)) := by
  intro d
  induction d with
  | zero =>
    intro j fuel points hj hf
    obtain ⟨f, rfl⟩ : ∃ f, fuel = f + 1 := ⟨fuel - 1, by omega⟩
    have hnot : ¬ j * step < heatmapMatrix.length := by
      rw [← stride_lt_iff hs]
      omega
    simp [outerLoop, hnot]
  | succ d ih =>
    intro j fuel points hj hf
    obtain ⟨f, rfl⟩ : ∃ f, fuel = f + 1 := ⟨fuel - 1, by omega⟩
    have hlt : j * step < heatmapMatrix.length := by
      rw [← stride_lt_iff hs]
      omega
    have hnext : j * step + step = (j + 1) * step := by rw [Nat.add_mul, Nat.one_mul]
    have hget : heatmapMatrix.get ⟨j * step, hlt⟩ = heatmapMatrix.getD (j * step) [] := by
      simp [List.getD_eq_getElem?_getD, List.getElem?_eq_getElem hlt]
    have hmem : heatmapMatrix.get ⟨j * step, hlt⟩ ∈ heatmapMatrix := List.get_mem _ _ _
    rw [outerLoop, dif_pos hlt,
      innerLoop_zero _ step hs scaleX scaleY _ innerFuel points (hin _ hmem), hget, hnext]
    simp only []
    rw [ih (j + 1) f _ (by omega) (by omega), List.range'_succ, List.map_cons,
      List.flatMap_cons, List.append_assoc]
    rfl

/-- With a positive stride and enough fuel the two loops, run from `y = 0` with no
points, produce the scan of the matrix. -/
theorem outerLoop_zero (heatmapMatrix : Matrix) (step : Nat) (hs : 0 < step) (scaleX scaleY : ℚ)
    (fuel : Nat) (hrows : heatmapMatrix.length < fuel)
    (hin : ∀ row ∈ heatmapMatrix, row.length < fuel) :
    outerLoop heatmapMatrix step scaleX scaleY fuel fuel 0 [] =
      some (scanPoints heatmapMatrix step scaleX scaleY) := by
  have hk : (heatmapMatrix.length + step - 1) / step ≤ heatmapMatrix.length := by
    rw [ceilDiv_le_iff hs]
    exact Nat.le_mul_of_pos_left _ hs
  have h := outerLoop_eq heatmapMatrix step hs scaleX scaleY fuel hin
    ((heatmapMatrix.length + step - 1) / step) 0 fuel [] (by omega) (by omega)
  rw [Nat.zero_mul] at h
  rw [h, scanPoints, strideIndices, List.range_eq_range', List.nil_append]

/-- A matrix with a first row that is not empty is sampled, with enough fuel, to
the scan of the matrix at the stride of line 85. -/
theorem sample_eq_scanPoints (row0 : List Int) (rest : Matrix) (scaleX scaleY : ℚ) (fuel : Nat)
    (h0 : row0 ≠ []) (hrows : (row0 :: rest).length < fuel)
    (hin : ∀ row ∈ row0 :: rest, row.length < fuel) :
    sample (row0 :: rest) scaleX scaleY fuel =
      Outcome.ok (scanPoints (row0 :: rest)
        (stepOf (row0 :: rest).length row0.length) scaleX scaleY) := by
  have hpos : 0 < stepOf (row0 :: rest).length row0.length := by
    rw [stepOf_pos_iff]
    exact Nat.mul_pos (by simp) (List.length_pos.mpr h0)
  have h := outerLoop_zero (row0 :: rest) _ hpos scaleX scaleY fuel hrows hin
  simp only [sample, h]

/-- Membership in the stride indices, for a positive stride. -/
theorem mem_strideIndices {n step : Nat} (hs : 0 < step) (x : Nat) :
    x ∈ strideIndices n step ↔ x < n ∧ step ∣ x := by
  simp only [strideIndices, List.mem_map, List.mem_range]
  constructor
  · rintro ⟨k, hk, rfl⟩
    exact ⟨(stride_lt_iff hs k).mp hk, Dvd.intro_left k rfl⟩
  · rintro ⟨hx, k, rfl⟩
    refine ⟨k, ?_, Nat.mul_comm k step⟩
    rw [stride_lt_iff hs, Nat.mul_comm]
    exact hx

/-- On a rectangular matrix the scan reads every row up to `columnCount`. -/
theorem scanPoints_eq_referencePoints (heatmapMatrix : Matrix) (columnCount step : Nat)
    (hs : 0 < step) (scaleX scaleY : ℚ) (hrect : Rectangular heatmapMatrix columnCount) :
    scanPoints heatmapMatrix step scaleX scaleY =
      referencePoints heatmapMatrix columnCount step scaleX scaleY := by
  unfold scanPoints referencePoints
  apply List.flatMap_congr
  intro y hy
  have hlt : y < heatmapMatrix.length := ((mem_strideIndices hs y).mp hy).1
  have hrow : heatmapMatrix.getD y [] = heatmapMatrix.get ⟨y, hlt⟩ := by
    simp [List.getD_eq_getElem?_getD, List.getElem?_eq_getElem hlt]
  rw [hrow, hrect _ (List.get_mem _ _ _)]

/-! ## Invariants of the loops -/

/-- A property of the points that holds for the point of every entry of the row
is kept by the inner loop, whatever the stride and the fuel. -/
theorem innerLoop_forall (P : Point → Prop) (row : List Int) (step : Nat) (scaleX scaleY : ℚ)
    (y : Nat)
    (hP : ∀ (x : Nat) (h : x < row.length), 255 - row.get ⟨x, h⟩ > 10 →
      P { x := ⌊(x : ℚ) * scaleX⌋, y := ⌊(y : ℚ) * scaleY⌋, value := 255 - row.get ⟨x, h⟩ }) :
    ∀ (fuel x : Nat) (points result : List Point), (∀ p ∈ points, P p) →
      innerLoop row step scaleX scaleY y fuel x points = some result → ∀ p ∈ result, P p := by
  intro fuel
  induction fuel with
  | zero =>
    intro x points result _ h
    simp [innerLoop] at h
  | succ f ih =>
    intro x points result hpts h
    rw [innerLoop] at h
    by_cases hlt : x < row.length
    · rw [dif_pos hlt] at h
      simp only [] at h
      by_cases hv : 255 - row.get ⟨x, hlt⟩ > 10
      · rw [if_pos hv] at h
        refine ih _ _ _ ?_ h
        intro p hp
        rcases List.mem_append.mp hp with hp | hp
        · exact hpts p hp
        · rw [List.mem_singleton] at hp
          rw [hp]
          exact hP x hlt hv
      · rw [if_neg hv] at h
        exact ih _ _ _ hpts h
    · rw [dif_neg hlt] at h
      cases h
      exact hpts

/-- A property of the points that holds for the point of every cell of the
matrix is kept by the outer loop, whatever the stride and the fuel. -/
theorem outerLoop_forall (P : Point → Prop) (heatmapMatrix : Matrix) (step : Nat)
    (scaleX scaleY : ℚ) (innerFuel : Nat)
    (hP : ∀ (y : Nat) (hy : y < heatmapMatrix.length) (x : Nat)
      (hx : x < (heatmapMatrix.get ⟨y, hy⟩).length),
      255 - (heatmapMatrix.get ⟨y, hy⟩).get ⟨x, hx⟩ > 10 →
      P { x := ⌊(x : ℚ) * scaleX⌋, y := ⌊(y : ℚ) * scaleY⌋,
          value := 255 - (heatmapMatrix.get ⟨y, hy⟩).get ⟨x, hx⟩ }) :
    ∀ (fuel y : Nat) (points result : List Point), (∀ p ∈ points, P p) →
      outerLoop heatmapMatrix step scaleX scaleY innerFuel fuel y points = some result →
      ∀ p ∈ result, P p := by
  intro fuel
  induction fuel with
  | zero =>
    intro y points result _ h
    simp [outerLoop] at h
  | succ f ih =>
    intro y points result hpts h
    rw [outerLoop] at h
    by_cases hlt : y < heatmapMatrix.length
    · rw [dif_pos hlt] at h
      cases hin : innerLoop (heatmapMatrix.get ⟨y, hlt⟩) step scaleX scaleY y innerFuel 0 points with
      | none =>
        rw [hin] at h
        cases h
      | some points1 =>
        rw [hin] at h
        exact ih _ _ _
          (innerLoop_forall P _ step scaleX scaleY y (hP y hlt) innerFuel 0 points points1 hpts hin)
          h
    · rw [dif_neg hlt] at h
      cases h
      exact hpts

/-- A property of the points that holds for the point of every cell of the
matrix holds for every point handed to the renderer. -/
theorem sample_forall (P : Point → Prop) (heatmapMatrix : Matrix) (scaleX scaleY : ℚ)
    (hP : ∀ (y : Nat) (hy : y < heatmapMatrix.length) (x : Nat)
      (hx : x < (heatmapMatrix.get ⟨y, hy⟩).length),
      255 - (heatmapMatrix.get ⟨y, hy⟩).get ⟨x, hx⟩ > 10 →
      P { x := ⌊(x : ℚ) * scaleX⌋, y := ⌊(y : ℚ) * scaleY⌋,
          value := 255 - (heatmapMatrix.get ⟨y, hy⟩).get ⟨x, hx⟩ })
    (fuel : Nat) (points : List Point)
    (h : sample heatmapMatrix scaleX scaleY fuel = Outcome.ok points) : ∀ p ∈ points, P p := by
  cases heatmapMatrix with
  | nil => simp [sample] at h
  | cons row0 rest =>
    simp only [sample] at h
    cases hout : outerLoop (row0 :: rest) (stepOf (row0 :: rest).length row0.length)
        scaleX scaleY fuel fuel 0 [] with
    | none =>
      rw [hout] at h
      cases h
    | some result =>
      rw [hout] at h
      cases h
      exact outerLoop_forall P _ _ scaleX scaleY fuel hP fuel 0 [] _ (by simp) hout

/-! ## The sampled points -/

/-- Membership in the reference list: the points of the cells at the stride
that pass the threshold. -/
theorem mem_referencePoints (heatmapMatrix : Matrix) (columnCount step : Nat) (hs : 0 < step)
    (scaleX scaleY : ℚ) (p : Point) :
    p ∈ referencePoints heatmapMatrix columnCount step scaleX scaleY ↔
      ∃ y x : Nat, y < heatmapMatrix.length ∧ step ∣ y ∧ x < columnCount ∧ step ∣ x ∧
        255 - (heatmapMatrix.getD y []).getD x 0 > 10 ∧
        p = { x := ⌊(x : ℚ) * scaleX⌋, y := ⌊(y : ℚ) * scaleY⌋,
              value := 255 - (heatmapMatrix.getD y []).getD x 0 } := by
  simp only [referencePoints, List.mem_flatMap, List.mem_filterMap, mem_strideIndices hs,
    cellPoint, rowPoint]
  constructor
  · rintro ⟨y, ⟨hy, hdy⟩, x, ⟨hx, hdx⟩, hp⟩
    by_cases hv : 255 - (heatmapMatrix.getD y []).getD x 0 > 10
    · rw [if_pos hv] at hp
      exact ⟨y, x, hy, hdy, hx, hdx, hv, (Option.some.inj hp).symm⟩
    · rw [if_neg hv] at hp
      cases hp
  · rintro ⟨y, x, hy, hdy, hx, hdx, hv, rfl⟩
    exact ⟨y, ⟨hy, hdy⟩, x, ⟨hx, hdx⟩, by rw [if_pos hv]⟩

/-- A rectangular matrix with at least one row and one column is sampled, with
enough fuel and whatever the scale factors, to the reference list. -/
theorem sample_rectangular (heatmapMatrix : Matrix) (columnCount : Nat)
    (scaleX scaleY : ℚ) (fuel : Nat)
    (hrows : 0 < heatmapMatrix.length) (hcols : 0 < columnCount)
    (hrect : Rectangular heatmapMatrix columnCount)
    (hfr : heatmapMatrix.length < fuel) (hfc : columnCount < fuel) :
    sample heatmapMatrix scaleX scaleY fuel =
      Outcome.ok (referencePoints heatmapMatrix columnCount
        (stepOf heatmapMatrix.length columnCount) scaleX scaleY) := by
  have hpos : 0 < stepOf heatmapMatrix.length columnCount :=
    (stepOf_pos_iff _ _).mpr (Nat.mul_pos hrows hcols)
  cases heatmapMatrix with
  | nil => simp at hrows
  | cons row0 rest =>
    have h0len : row0.length = columnCount := hrect row0 (List.mem_cons_self _ _)
    have h0 : row0 ≠ [] := by
      intro h
      rw [h] at h0len
      simp at h0len
      omega
    have hin : ∀ row ∈ row0 :: rest, row.length < fuel := by
      intro row hrow
      rw [hrect row hrow]
      exact hfc
    rw [sample_eq_scanPoints row0 rest scaleX scaleY fuel h0 hfr hin, h0len,
      scanPoints_eq_referencePoints _ columnCount _ hpos scaleX scaleY hrect]

/-- C2: when the entries of the matrix lie in `[0,255]`, every point handed to the
renderer has a value `v` with `10 < v ≤ 255` (so `0 ≤ v ≤ 255`); a cell whose
inverted value is at most `10` gives no point. This holds for every stride, every
scale pair and every amount of fuel. -/
theorem sample_value_bounds (heatmapMatrix : Matrix) (scaleX scaleY : ℚ) (fuel : Nat)
    (points : List Point)
    (hrange : ∀ row ∈ heatmapMatrix, ∀ v ∈ row, 0 ≤ v ∧ v ≤ 255)
    (h : sample heatmapMatrix scaleX scaleY fuel = Outcome.ok points) :
    ∀ p ∈ points, 10 < p.value ∧ p.value ≤ 255 ∧ 0 ≤ p.value := by
  refine sample_forall (fun p => 10 < p.value ∧ p.value ≤ 255 ∧ 0 ≤ p.value) heatmapMatrix
    scaleX scaleY ?_ fuel points h
  intro y hy x hx hv
  have hr := hrange _ (List.get_mem heatmapMatrix y hy) _
    (List.get_mem (heatmapMatrix.get ⟨y, hy⟩) x hx)
  simp only []
  omega

/-- The bounds of C2 on the points of `[[0,255],[255,0]]` with scale `(1,1)`. -/
theorem sample_value_bounds_witness :
    sample [[0, 255], [255, 0]] 1 1 3 =
        Outcome.ok [{ x := 0, y := 0, value := 255 }, { x := 1, y := 1, value := 255 }] ∧
      ∀ p ∈ [({ x := 0, y := 0, value := 255 } : Point), { x := 1, y := 1, value := 255 }],
        10 < p.value ∧ p.value ≤ 255 ∧ 0 ≤ p.value := by
  have hs : sample [[0, 255], [255, 0]] 1 1 3 =
      Outcome.ok [{ x := 0, y := 0, value := 255 }, { x := 1, y := 1, value := 255 }] := by
    norm_num [sample, stepOf, ceilSqrtDiv, outerLoop, innerLoop]
  refine ⟨hs, sample_value_bounds [[0, 255], [255, 0]] 1 1 3 _ ?_ hs⟩
  intro row hrow v hv
  simp at hrow
  rcases hrow with rfl | rfl <;> simp at hv <;> rcases hv with rfl | rfl <;> decide

/-! ## The stride and the size of the output -/

/-- C4: for a matrix with a first row of `columnCount ≥ 1` entries (and so
`rowCount ≥ 1` rows), the stride of lines 84-85 is
`ceil (sqrt (rowCount * columnCount / 5000))` over the reals, it is the least
positive integer `s` with `5000 * s^2 ≥ rowCount * columnCount`, and it is `1`
whenever `rowCount * columnCount ≤ 5000`, in which case every index is visited. -/
theorem stepOf_isLeast (row0 : List Int) (rest : Matrix) (hc : 1 ≤ row0.length) :
    stepOf (row0 :: rest).length row0.length =
        ⌈Real.sqrt ((((row0 :: rest).length * row0.length : ℕ) : ℝ) / 5000)⌉₊ ∧
      IsLeast {s : ℕ | 0 < s ∧ (row0 :: rest).length * row0.length ≤ 5000 * s ^ 2}
        (stepOf (row0 :: rest).length row0.length) ∧
      ((row0 :: rest).length * row0.length ≤ 5000 →
        stepOf (row0 :: rest).length row0.length = 1 ∧
        ∀ n : Nat, strideIndices n (stepOf (row0 :: rest).length row0.length) = List.range n) := by
  have htotal : 0 < (row0 :: rest).length * row0.length := Nat.mul_pos (by simp) hc
  have hpos : 0 < stepOf (row0 :: rest).length row0.length := (stepOf_pos_iff _ _).mpr htotal
  refine ⟨?_, ⟨⟨hpos, ?_⟩, ?_⟩, ?_⟩
  · have h := ceilSqrtDiv_eq_ceil_sqrt (n := (row0 :: rest).length * row0.length) (d := 5000)
      (by decide)
    rw [stepOf, h]
    norm_num
  · rw [sq]
    exact (stepOf_le_iff _ _ _).mp le_rfl
  · rintro s ⟨_, hs⟩
    rw [sq] at hs
    exact (stepOf_le_iff _ _ _).mpr hs
  · intro hsmall
    have hle : stepOf (row0 :: rest).length row0.length ≤ 1 :=
      (stepOf_le_iff _ _ 1).mpr (by omega)
    have hone : stepOf (row0 :: rest).length row0.length = 1 := by omega
    refine ⟨hone, fun n => ?_⟩
    rw [hone]
    simp [strideIndices]

/-- The stride of C4 on the matrix `[[0,255],[255,0]]`: four cells, stride `1`. -/
theorem stepOf_isLeast_witness :
    IsLeast {s : ℕ | 0 < s ∧ ([[0, 255], [255, 0]] : Matrix).length * [(0 : Int), 255].length
        ≤ 5000 * s ^ 2} (stepOf ([[0, 255], [255, 0]] : Matrix).length [(0 : Int), 255].length) ∧
      stepOf ([[0, 255], [255, 0]] : Matrix).length [(0 : Int), 255].length = 1 :=
  ⟨(stepOf_isLeast [0, 255] [[255, 0]] (by decide)).2.1,
    ((stepOf_isLeast [0, 255] [[255, 0]] (by decide)).2.2 (by decide)).1⟩

/-- The number of stride indices below `n`. -/
theorem length_strideIndices (n step : Nat) :
    (strideIndices n step).length = (n + step - 1) / step := by
  simp [strideIndices]

/-- The reference list has at most as many points as cells are visited. -/
theorem length_referencePoints_le (heatmapMatrix : Matrix) (columnCount step : Nat)
    (scaleX scaleY : ℚ) :
    (referencePoints heatmapMatrix columnCount step scaleX scaleY).length ≤
      ((heatmapMatrix.length + step - 1) / step) * ((columnCount + step - 1) / step) := by
  unfold referencePoints
  rw [List.length_flatMap, ← length_strideIndices heatmapMatrix.length step]
  generalize strideIndices heatmapMatrix.length step = ys
  induction ys with
  | nil => simp
  | cons y ys ih =>
    simp only [List.map_cons, List.sum_cons, List.length_cons, Function.comp_apply]
    have h1 := List.length_filterMap_le (cellPoint heatmapMatrix scaleX scaleY y)
      (strideIndices columnCount step)
    rw [length_strideIndices] at h1
    rw [Nat.add_mul, Nat.one_mul]
    omega

/-- On a matrix of zeros every visited cell gives a point. -/
theorem length_referencePoints_zeros (rowCount columnCount step : Nat) (hs : 0 < step)
    (scaleX scaleY : ℚ) :
    (referencePoints (zeros rowCount columnCount) columnCount step scaleX scaleY).length =
      ((rowCount + step - 1) / step) * ((columnCount + step - 1) / step) := by
  unfold referencePoints
  rw [List.length_flatMap]
  have hlen : (zeros rowCount columnCount).length = rowCount := by
    rw [zeros, List.length_replicate]
  rw [hlen]
  have hinner : ∀ y ∈ strideIndices rowCount step,
      (List.length ∘ fun y => (strideIndices columnCount step).filterMap
        (cellPoint (zeros rowCount columnCount) scaleX scaleY y)) y =
        (columnCount + step - 1) / step := by
    intro y hy
    have hy' : y < rowCount := ((mem_strideIndices hs y).mp hy).1
    have hrow : (zeros rowCount columnCount).getD y [] = List.replicate columnCount 0 := by
      simp [zeros, List.getD_eq_getElem?_getD, List.getElem?_replicate, hy']
    have hmap : (strideIndices columnCount step).filterMap
        (cellPoint (zeros rowCount columnCount) scaleX scaleY y) =
        (strideIndices columnCount step).map
          (fun x : Nat =>
            ({ x := ⌊(x : ℚ) * scaleX⌋, y := ⌊(y : ℚ) * scaleY⌋, value := 255 } : Point)) := by
      rw [← List.filterMap_eq_map]
      apply List.filterMap_congr
      intro x hx
      have hx' : x < columnCount := ((mem_strideIndices hs x).mp hx).1
      have hcell : (List.replicate columnCount (0 : Int)).getD x 0 = 0 := by
        simp [List.getD_eq_getElem?_getD, List.getElem?_replicate, hx']
      simp only [cellPoint, rowPoint, hrow, hcell, Function.comp_apply]
      norm_num
    simp only [Function.comp_apply]
    rw [hmap, List.length_map, length_strideIndices]
  rw [List.map_congr_left hinner]
  simp [length_strideIndices]

/-- The matrix of zeros is rectangular. -/
theorem rectangular_zeros (rowCount columnCount : Nat) :
    Rectangular (zeros rowCount columnCount) columnCount := by
  intro row hrow
  rw [zeros, List.mem_replicate] at hrow
  rw [hrow.2, List.length_replicate]

/-- C3, as the code has it: on a rectangular matrix with at least one row and one
column the number of emitted points is at most the number of cells the strided
scan visits, `ceil (rowCount / step) * ceil (columnCount / step)`, and
`totalCells / step^2` is at most `5000` (`totalCells ≤ 5000 * step^2`). -/
theorem sample_length_le_visited (heatmapMatrix : Matrix) (columnCount : Nat)
    (scaleX scaleY : ℚ) (fuel : Nat)
    (hrows : 0 < heatmapMatrix.length) (hcols : 0 < columnCount)
    (hrect : Rectangular heatmapMatrix columnCount)
    (hfr : heatmapMatrix.length < fuel) (hfc : columnCount < fuel) :
    ∃ points : List Point, sample heatmapMatrix scaleX scaleY fuel = Outcome.ok points ∧
      points.length ≤
        ((heatmapMatrix.length + stepOf heatmapMatrix.length columnCount - 1) /
            stepOf heatmapMatrix.length columnCount) *
          ((columnCount + stepOf heatmapMatrix.length columnCount - 1) /
            stepOf heatmapMatrix.length columnCount) ∧
      heatmapMatrix.length * columnCount ≤ 5000 * stepOf heatmapMatrix.length columnCount ^ 2 ∧
      heatmapMatrix.length * columnCount / stepOf heatmapMatrix.length columnCount ^ 2 ≤ 5000 := by
  have hpos : 0 < stepOf heatmapMatrix.length columnCount :=
    (stepOf_pos_iff _ _).mpr (Nat.mul_pos hrows hcols)
  have htotal : heatmapMatrix.length * columnCount ≤
      5000 * stepOf heatmapMatrix.length columnCount ^ 2 := by
    rw [sq]
    exact (stepOf_le_iff _ _ _).mp le_rfl
  refine ⟨_, sample_rectangular heatmapMatrix columnCount scaleX scaleY fuel hrows hcols hrect
    hfr hfc, length_referencePoints_le _ _ _ _ _, htotal, ?_⟩
  rw [Nat.div_le_iff_le_mul_add_pred (pow_pos hpos 2)]
  have hmul : stepOf heatmapMatrix.length columnCount ^ 2 * 5000 =
      5000 * stepOf heatmapMatrix.length columnCount ^ 2 := Nat.mul_comm _ _
  omega

/-- The bound of C3 on the matrix `[[0,255],[255,0]]`: stride `1`, four visited
cells, two points. -/
theorem sample_length_le_visited_witness :
    ∃ points : List Point, sample [[0, 255], [255, 0]] 1 1 3 = Outcome.ok points ∧
      points.length ≤
        ((([[0, 255], [255, 0]] : Matrix).length + stepOf ([[0, 255], [255, 0]] : Matrix).length 2
            - 1) / stepOf ([[0, 255], [255, 0]] : Matrix).length 2) *
          ((2 + stepOf ([[0, 255], [255, 0]] : Matrix).length 2 - 1) /
            stepOf ([[0, 255], [255, 0]] : Matrix).length 2) ∧
      ([[0, 255], [255, 0]] : Matrix).length * 2 ≤
        5000 * stepOf ([[0, 255], [255, 0]] : Matrix).length 2 ^ 2 ∧
      ([[0, 255], [255, 0]] : Matrix).length * 2 /
        stepOf ([[0, 255], [255, 0]] : Matrix).length 2 ^ 2 ≤ 5000 :=
  sample_length_le_visited [[0, 255], [255, 0]] 2 1 1 3 (by decide) (by decide)
    (by decide)
    (by decide) (by decide)

/-- C3 fails as stated on the 4000 x 3000 matrix of zeros: the stride is `49`,
the scan visits `82 * 62 = 5084` cells and emits as many points, more than
`totalCells / step^2 = 4997` and more than `5000`. -/
theorem sample_zeros_exceeds_budget :
    stepOf 4000 3000 = 49 ∧
      ∃ points : List Point, sample (zeros 4000 3000) 1 1 4001 = Outcome.ok points ∧
        points.length = 5084 ∧
        ¬ (points.length ≤ 4000 * 3000 / 49 ^ 2) ∧ ¬ (points.length ≤ 5000) := by
  have hstep : stepOf 4000 3000 = 49 := stepOf_eq_succ 4000 3000 48 (by norm_num) (by norm_num)
  have hlen : (zeros 4000 3000).length = 4000 := by rw [zeros, List.length_replicate]
  have hs := sample_rectangular (zeros 4000 3000) 3000 1 1 4001 (by rw [hlen]; decide)
    (by decide) (rectangular_zeros 4000 3000) (by rw [hlen]; decide) (by decide)
  rw [hlen, hstep] at hs
  have hcount := length_referencePoints_zeros 4000 3000 49 (by decide) 1 1
  refine ⟨hstep, _, hs, ?_, ?_, ?_⟩
  · rw [hcount]
  · rw [hcount]
    norm_num
  · rw [hcount]
    norm_num

/-! ## Malformed input -/

/-- The rows of `[[1,2],[3]]` do not all have the same length. -/
theorem not_rectangular_example : ¬ ∃ c : Nat, Rectangular [[1, 2], [3]] c := by
  rintro ⟨c, hc⟩
  have h1 := hc [1, 2] (by simp)
  have h2 := hc [3] (by simp)
  simp at h1 h2
  omega

/-- C5 fails as stated on `[[1,2],[3]]` with scale `(1,1)`: no error is raised, the
three cells are read and three points are handed to the renderer. -/
theorem sample_nonRectangular_emits :
    (¬ ∃ c : Nat, Rectangular [[1, 2], [3]] c) ∧
      sample [[1, 2], [3]] 1 1 3 =
        Outcome.ok [{ x := 0, y := 0, value := 254 }, { x := 1, y := 0, value := 253 },
          { x := 0, y := 1, value := 252 }] ∧
      (sample [[1, 2], [3]] 1 1 3).failsWith "InvalidMatrixShape" = false := by
  have hs : sample [[1, 2], [3]] 1 1 3 =
      Outcome.ok [{ x := 0, y := 0, value := 254 }, { x := 1, y := 0, value := 253 },
        { x := 0, y := 1, value := 252 }] := by
    norm_num [sample, stepOf, ceilSqrtDiv, outerLoop, innerLoop]
  refine ⟨not_rectangular_example, hs, ?_⟩
  rw [hs]
  rfl

/-- C5, as the code has it: a matrix whose rows do not all have the same length
and whose first row is not empty is sampled without any error: with enough fuel
the loops hand over the scan that reads every visited row up to its own length,
at the stride computed from the length of the first row. -/
theorem sample_nonRectangular (row0 : List Int) (rest : Matrix) (scaleX scaleY : ℚ) (fuel : Nat)
    (_hshape : ¬ ∃ c : Nat, Rectangular (row0 :: rest) c) (h0 : row0 ≠ [])
    (hrows : (row0 :: rest).length < fuel)
    (hin : ∀ row ∈ row0 :: rest, row.length < fuel) :
    sample (row0 :: rest) scaleX scaleY fuel =
        Outcome.ok (scanPoints (row0 :: rest)
          (stepOf (row0 :: rest).length row0.length) scaleX scaleY) ∧
      (sample (row0 :: rest) scaleX scaleY fuel).failsWith "InvalidMatrixShape" = false := by
  have hs := sample_eq_scanPoints row0 rest scaleX scaleY fuel h0 hrows hin
  refine ⟨hs, ?_⟩
  rw [hs]
  rfl

/-- The run of C5 on `[[1,2],[3]]`. -/
theorem sample_nonRectangular_witness :
    (¬ ∃ c : Nat, Rectangular [[1, 2], [3]] c) ∧
      sample [[1, 2], [3]] 1 1 3 =
        Outcome.ok (scanPoints [[1, 2], [3]] (stepOf ([[1, 2], [3]] : Matrix).length
          [(1 : Int), 2].length) 1 1) ∧
      (sample [[1, 2], [3]] 1 1 3).failsWith "InvalidMatrixShape" = false :=
  ⟨not_rectangular_example,
    sample_nonRectangular [1, 2] [[3]] 1 1 3 not_rectangular_example (by simp) (by decide)
      (by
        intro row hrow
        simp at hrow
        rcases hrow with rfl | rfl <;> decide)⟩

/-- C6 fails as stated: on the empty matrix the run does not end with an error
named `InvalidMatrixShape`. -/
theorem sample_empty_not_shape_error :
    (sample [] 1 1 1).failsWith "InvalidMatrixShape" = false := by
  decide

/-- C6, as the code has it: on the empty matrix, whatever the scale factors and
the fuel, the run ends with the `TypeError` that the engine raises when line 84
reads `heatmapMatrix[0].length`, and no dataset is handed to the renderer. -/
theorem sample_empty (scaleX scaleY : ℚ) (fuel : Nat) :
    sample [] scaleX scaleY fuel = Outcome.threw JsException.typeError ∧
      (sample [] scaleX scaleY fuel).failsWith "TypeError" = true ∧
      (sample [] scaleX scaleY fuel).dataset = none := by
  have hname : (Outcome.threw JsException.typeError).failsWith "TypeError" = true := by decide
  exact ⟨rfl, hname, rfl⟩

/-! ## Termination -/

/-- With a positive stride the visited indices increase strictly. -/
theorem pairwise_strideIndices (n step : Nat) (hs : 0 < step) :
    List.Pairwise (fun a b => a < b) (strideIndices n step) := by
  unfold strideIndices
  exact List.Pairwise.map _ (fun a b hab => Nat.mul_lt_mul_of_pos_right hab hs)
    (List.pairwise_lt_range _)

/-- With stride `0` on a matrix whose first row is empty the outer loop stays at
`y = 0` until the fuel is used up. -/
theorem outerLoop_stuck (rest : Matrix) (scaleX scaleY : ℚ) (innerFuel : Nat) :
    ∀ (fuel : Nat) (points : List Point),
      outerLoop ([] :: rest) 0 scaleX scaleY innerFuel fuel 0 points = none := by
  intro fuel
  induction fuel with
  | zero =>
    intro points
    rfl
  | succ f ih =>
    intro points
    rw [outerLoop, dif_pos (by simp)]
    cases innerFuel with
    | zero => rfl
    | succ g =>
      have hin : innerLoop (([] :: rest).get ⟨0, by simp⟩) 0 scaleX scaleY 0 (g + 1) 0 points =
          some points := by
        simp [innerLoop]
      rw [hin]
      exact ih points

/-- C8: for a matrix with at least one row, whatever the lengths of its rows, the
stride is at least `1` exactly when the first row is not empty. When the stride is
at least `1` each loop index increases strictly at every iteration, the visited
indices are pairwise distinct and ascending, and with enough fuel the sampling
ends with the scan of the matrix. When the first row is empty the stride is `0`,
the index of the outer loop does not advance and the sampling never ends. -/
theorem stride_pos_iff_and_termination (row0 : List Int) (rest : Matrix) (scaleX scaleY : ℚ) :
    (1 ≤ stepOf (row0 :: rest).length row0.length ↔ row0 ≠ []) ∧
      (1 ≤ stepOf (row0 :: rest).length row0.length →
        (∀ i : Nat, i < i + stepOf (row0 :: rest).length row0.length) ∧
        (∀ n : Nat, List.Pairwise (fun a b => a < b)
          (strideIndices n (stepOf (row0 :: rest).length row0.length))) ∧
        ∀ fuel : Nat, (row0 :: rest).length < fuel → (∀ row ∈ row0 :: rest, row.length < fuel) →
          sample (row0 :: rest) scaleX scaleY fuel =
            Outcome.ok (scanPoints (row0 :: rest)
              (stepOf (row0 :: rest).length row0.length) scaleX scaleY)) ∧
      (row0 = [] →
        stepOf (row0 :: rest).length row0.length = 0 ∧
        (∀ i : Nat, i + stepOf (row0 :: rest).length row0.length = i) ∧
        ∀ fuel : Nat, sample (row0 :: rest) scaleX scaleY fuel = Outcome.timeout) := by
  have hiff : 1 ≤ stepOf (row0 :: rest).length row0.length ↔ row0 ≠ [] := by
    rw [Nat.one_le_iff_ne_zero, Nat.ne_zero_iff_zero_lt, stepOf_pos_iff, ← List.length_pos]
    constructor
    · intro h
      apply Nat.pos_of_ne_zero
      intro hz
      rw [hz] at h
      simp at h
    · intro h
      exact Nat.mul_pos (by simp) h
  refine ⟨hiff, ?_, ?_⟩
  · intro hstep
    refine ⟨fun i => by omega, fun n => pairwise_strideIndices n _ hstep, ?_⟩
    intro fuel hrows hin
    exact sample_eq_scanPoints row0 rest scaleX scaleY fuel (hiff.mp hstep) hrows hin
  · intro hrow
    subst hrow
    have hzero : stepOf ([] :: rest : Matrix).length ([] : List Int).length = 0 := by
      have h := (stepOf_pos_iff ([] :: rest : Matrix).length ([] : List Int).length).not
      simp at h
      exact h
    refine ⟨hzero, fun i => by rw [hzero, Nat.add_zero], ?_⟩
    intro fuel
    simp only [sample]
    rw [hzero, outerLoop_stuck]

/-- The two cases of C8: `[[1,2],[3]]` has stride `1` and is sampled to its scan;
`[[]]` has stride `0` and its sampling runs out of any fuel. -/
theorem stride_pos_iff_and_termination_witness :
    (1 ≤ stepOf ([[1, 2], [3]] : Matrix).length [(1 : Int), 2].length ∧
        sample [[1, 2], [3]] 1 1 3 =
          Outcome.ok (scanPoints [[1, 2], [3]]
            (stepOf ([[1, 2], [3]] : Matrix).length [(1 : Int), 2].length) 1 1)) ∧
      (stepOf ([[]] : Matrix).length ([] : List Int).length = 0 ∧
        ∀ fuel : Nat, sample [[]] 1 1 fuel = Outcome.timeout) := by
  have h1 := stride_pos_iff_and_termination [1, 2] [[3]] 1 1
  have h2 := stride_pos_iff_and_termination [] [] 1 1
  have hstep : 1 ≤ stepOf ([[1, 2], [3]] : Matrix).length [(1 : Int), 2].length :=
    h1.1.mpr (by simp)
  refine ⟨⟨hstep, (h1.2.1 hstep).2.2 3 (by decide) ?_⟩, (h2.2.2 rfl).1, (h2.2.2 rfl).2.2⟩
  intro row hrow
  simp at hrow
  rcases hrow with rfl | rfl <;> decide

/-! ## Points inside the overlay -/

/-- The floor of `i * (display / natural)` lies in `[0, display)` for an index
`i` below `natural`. -/
theorem floor_scaled_bounds (i display natural : Nat) (hi : i < natural) (hd : 0 < display) :
    0 ≤ ⌊(i : ℚ) * ((display : ℚ) / (natural : ℚ))⌋ ∧
      ⌊(i : ℚ) * ((display : ℚ) / (natural : ℚ))⌋ < (display : ℤ) := by
  have hn : (0 : ℚ) < (natural : ℚ) := by
    have : 0 < natural := by omega
    exact_mod_cast this
  have hd' : (0 : ℚ) < (display : ℚ) := by exact_mod_cast hd
  have hi' : (i : ℚ) < (natural : ℚ) := by exact_mod_cast hi
  constructor
  · rw [Int.floor_nonneg]
    positivity
  · rw [Int.floor_lt]
    have h1 : (i : ℚ) * ((display : ℚ) / (natural : ℚ)) = (i : ℚ) * (display : ℚ) / (natural : ℚ) := by
      ring
    rw [h1, div_lt_iff₀ hn]
    push_cast
    nlinarith

/-- C9: for a rectangular matrix of `naturalHeight ≥ 1` rows and `naturalWidth ≥ 1`
columns and positive display dimensions, with the scale factors of lines 76-77
read as exact rationals, the handler hands over (with enough fuel) a list of
points that all lie inside the overlay: `0 ≤ x < displayWidth` and
`0 ≤ y < displayHeight`. -/
theorem onload_points_inside (heatmapMatrix : Matrix)
    (displayWidth displayHeight naturalWidth naturalHeight fuel : Nat)
    (hheight : heatmapMatrix.length = naturalHeight)
    (hrect : Rectangular heatmapMatrix naturalWidth)
    (hnh : 1 ≤ naturalHeight) (hnw : 1 ≤ naturalWidth)
    (hdw : 0 < displayWidth) (hdh : 0 < displayHeight)
    (hfr : naturalHeight < fuel) (hfc : naturalWidth < fuel) :
    ∃ points : List Point,
      onload heatmapMatrix displayWidth displayHeight naturalWidth naturalHeight fuel =
        Outcome.ok points ∧
      ∀ p ∈ points, 0 ≤ p.x ∧ p.x < (displayWidth : ℤ) ∧ 0 ≤ p.y ∧ p.y < (displayHeight : ℤ) := by
  subst hheight
  have hpos : 0 < stepOf heatmapMatrix.length naturalWidth :=
    (stepOf_pos_iff _ _).mpr (Nat.mul_pos hnh hnw)
  refine ⟨_, sample_rectangular heatmapMatrix naturalWidth _ _ fuel hnh hnw hrect hfr hfc, ?_⟩
  intro p hp
  rw [mem_referencePoints _ _ _ hpos] at hp
  obtain ⟨y, x, hy, _, hx, _, _, rfl⟩ := hp
  have h1 := floor_scaled_bounds x displayWidth naturalWidth hx hdw
  have h2 := floor_scaled_bounds y displayHeight heatmapMatrix.length hy hdh
  exact ⟨h1.1, h1.2, h2.1, h2.2⟩

/-- The run of C9 on `[[0,255],[255,0]]` shown at half its natural size. -/
theorem onload_points_inside_witness :
    Rectangular [[0, 255], [255, 0]] 2 ∧
      ∃ points : List Point, onload [[0, 255], [255, 0]] 1 1 2 2 3 = Outcome.ok points ∧
        ∀ p ∈ points, 0 ≤ p.x ∧ p.x < ((1 : ℕ) : ℤ) ∧ 0 ≤ p.y ∧ p.y < ((1 : ℕ) : ℤ) :=
  have hrect : Rectangular [[0, 255], [255, 0]] 2 := by decide
  ⟨hrect, onload_points_inside [[0, 255], [255, 0]] 1 1 2 2 3 rfl hrect (by decide) (by decide)
    (by decide) (by decide) (by decide) (by decide)⟩

/-! ## The button -/

/-- On the empty matrix the handler ends with the engine's `TypeError`. -/
theorem onload_empty (displayWidth displayHeight naturalWidth naturalHeight fuel : Nat) :
    onload [] displayWidth displayHeight naturalWidth naturalHeight fuel =
      Outcome.threw JsException.typeError :=
  rfl

/-- Mutual exclusion: in every state reached from a state with at most one
analysis in flight and a disabled button while one is in flight, at most one
analysis is in flight and the button is disabled while one is. -/
theorem handle_inFlight (s : Ui) (e : Event)
    (h : s.inFlight ≤ 1 ∧ (s.inFlight = 1 → s.disabled = true)) :
    (handle s e).inFlight ≤ 1 ∧ ((handle s e).inFlight = 1 → (handle s e).disabled = true) := by
  obtain ⟨disabled, pendingRequests, pendingImage, hung⟩ := s
  cases hung <;> cases disabled <;> cases pendingImage <;> cases e <;>
    simp [Ui.inFlight, handle] at h ⊢ <;>
    (try split) <;> simp_all [Ui.inFlight] <;> (try omega)

/-- Mutual exclusion along every sequence of events from the initial page. -/
theorem run_inFlight (events : List Event) :
    (run Ui.init events).inFlight ≤ 1 ∧
      ((run Ui.init events).inFlight = 1 → (run Ui.init events).disabled = true) := by
  have hgen : ∀ (evs : List Event) (s : Ui),
      (s.inFlight ≤ 1 ∧ (s.inFlight = 1 → s.disabled = true)) →
      (run s evs).inFlight ≤ 1 ∧ ((run s evs).inFlight = 1 → (run s evs).disabled = true) := by
    intro evs
    induction evs with
    | nil =>
      intro s hs
      exact hs
    | cons e evs ih =>
      intro s hs
      exact ih (handle s e) (handle_inFlight s e hs)
  exact hgen events Ui.init (by decide)

/-- C10 on the code: after a click with a URL, a response whose `heatmap_data` is
the empty array and the load of the image, the handler has ended by the uncaught
`TypeError` of line 84 before line 120: no analysis is in flight and the button
is still disabled. The sibling paths (the `catch` block, `onerror`, and `onload`
on a matrix with a cell) leave the button enabled. -/
theorem run_empty_matrix_leaves_disabled :
    run Ui.init [Event.click "u", Event.requestSucceeded [], Event.imageLoaded 1 1 1 1] =
        { disabled := true, pendingRequests := 0, pendingImage := none, hung := false } ∧
      (run Ui.init
        [Event.click "u", Event.requestSucceeded [], Event.imageLoaded 1 1 1 1]).inFlight = 0 ∧
      run Ui.init [Event.click "u", Event.requestFailed] = Ui.init ∧
      run Ui.init [Event.click "u", Event.requestSucceeded [], Event.imageError] = Ui.init ∧
      run Ui.init [Event.click "u", Event.requestSucceeded [[0]], Event.imageLoaded 1 1 1 1] =
        Ui.init := by
  have hok : onload [[0]] 1 1 1 1 (loopFuel [[0]]) =
      Outcome.ok [{ x := 0, y := 0, value := 255 }] := by
    norm_num [onload, loopFuel, sample, stepOf, ceilSqrtDiv, outerLoop, innerLoop]
  refine ⟨by decide, by decide, by decide, by decide, ?_⟩
  simp [run, handle, Ui.init, hok]

/-! ## Double arithmetic -/

/-- Rounding leaves an integer as it is. -/
theorem roundHalfEven_intCast (n : ℤ) : roundHalfEven (n : ℚ) = n := by
  simp [roundHalfEven]

/-- The binary exponent of a positive rational from its two bounds. -/
theorem intLog_eq {q : ℚ} (hq : 0 < q) (e : ℤ) (h1 : (2 : ℚ) ^ e ≤ q) (h2 : q < (2 : ℚ) ^ (e + 1)) :
    Int.log 2 q = e := by
  have ha : e ≤ Int.log 2 q := (Int.zpow_le_iff_le_log (by decide) hq).mp (by exact_mod_cast h1)
  have hb : Int.log 2 q < e + 1 := (Int.lt_zpow_iff_log_lt (by decide) hq).mp (by exact_mod_cast h2)
  omega

/-- The double nearest to `q` when `2^e ≤ |q| < 2^(e+1)` in the normal range. -/
theorem roundDouble_of_binade (q : ℚ) (e n : ℤ) (he : -1022 ≤ e)
    (h1 : (2 : ℚ) ^ e ≤ |q|) (h2 : |q| < (2 : ℚ) ^ (e + 1))
    (hn : roundHalfEven (q / (2 : ℚ) ^ (e - 52)) = n)
    (hlo : -(2 : ℚ) ^ (1024 : ℕ) < (n : ℚ) * (2 : ℚ) ^ (e - 52))
    (hhi : (n : ℚ) * (2 : ℚ) ^ (e - 52) < (2 : ℚ) ^ (1024 : ℕ)) :
    roundDouble q = JsNumber.finite ((n : ℚ) * (2 : ℚ) ^ (e - 52)) := by
  have hpos : 0 < |q| := lt_of_lt_of_le (zpow_pos (by norm_num) e) h1
  have hexp : ulpExponent q = e - 52 := by
    rw [ulpExponent, intLog_eq hpos e h1 h2, max_eq_left he]
  rw [roundDouble]
  simp only [hexp, hn]
  rw [if_neg (not_le.mpr hhi), if_neg (not_le.mpr hlo)]


/-- Integers of magnitude at most `2^53` are doubles: rounding leaves them as they are. -/
theorem roundDouble_intCast (n : ℤ) (hn : |n| ≤ 2 ^ 53) :
    roundDouble (n : ℚ) = JsNumber.finite (n : ℚ) := by
  have hbound : |(n : ℚ)| ≤ (2 : ℚ) ^ (53 : ℕ) := by
    have : ((|n| : ℤ) : ℚ) ≤ (((2 : ℤ) ^ 53 : ℤ) : ℚ) := by exact_mod_cast hn
    simpa using this
  have hlt : (n : ℚ) < (2 : ℚ) ^ (1024 : ℕ) := by
    have h1 : (n : ℚ) ≤ (2 : ℚ) ^ (53 : ℕ) := (abs_le.mp hbound).2
    have h2 : (2 : ℚ) ^ (53 : ℕ) < (2 : ℚ) ^ (1024 : ℕ) := by norm_num
    linarith
  have hgt : -(2 : ℚ) ^ (1024 : ℕ) < (n : ℚ) := by
    have h1 : -(2 : ℚ) ^ (53 : ℕ) ≤ (n : ℚ) := (abs_le.mp hbound).1
    have h2 : (2 : ℚ) ^ (53 : ℕ) < (2 : ℚ) ^ (1024 : ℕ) := by norm_num
    linarith
  have hint : ∃ m : ℤ, (m : ℚ) = (n : ℚ) / (2 : ℚ) ^ ulpExponent (n : ℚ) := by
    by_cases hz : n = 0
    · exact ⟨0, by simp [hz]⟩
    · have hpos : 0 < |(n : ℚ)| := abs_pos.mpr (by exact_mod_cast hz)
      have hone : (1 : ℚ) ≤ |(n : ℚ)| := by
        have : (1 : ℤ) ≤ |n| := Int.one_le_abs hz
        have h2 : ((1 : ℤ) : ℚ) ≤ ((|n| : ℤ) : ℚ) := by exact_mod_cast this
        simpa using h2
      have he0 : 0 ≤ Int.log 2 |(n : ℚ)| :=
        (Int.zpow_le_iff_le_log (by decide) hpos).mp (by simpa using hone)
      have he1 : Int.log 2 |(n : ℚ)| < 54 :=
        (Int.lt_zpow_iff_log_lt (by decide) hpos).mp (by
          have h2 : (2 : ℚ) ^ (53 : ℕ) < ((2 : ℕ) : ℚ) ^ (54 : ℤ) := by norm_num
          linarith)
      have hexp : ulpExponent (n : ℚ) = Int.log 2 |(n : ℚ)| - 52 := by
        rw [ulpExponent, max_eq_left (by omega)]
      rw [hexp]
      by_cases hk : Int.log 2 |(n : ℚ)| ≤ 52
      · obtain ⟨j, hj⟩ : ∃ j : ℕ, Int.log 2 |(n : ℚ)| - 52 = -(j : ℤ) :=
          ⟨(52 - Int.log 2 |(n : ℚ)|).toNat, by omega⟩
        refine ⟨n * 2 ^ j, ?_⟩
        rw [hj, zpow_neg, zpow_natCast]
        push_cast
        field_simp
      · have he : Int.log 2 |(n : ℚ)| = 53 := by omega
        have hle : ((2 : ℕ) : ℚ) ^ (Int.log 2 |(n : ℚ)|) ≤ |(n : ℚ)| :=
          Int.zpow_log_le_self (by decide) hpos
        rw [he] at hle
        have habs : |(n : ℚ)| = (2 : ℚ) ^ (53 : ℕ) := by
          apply le_antisymm hbound
          have h2 : ((2 : ℕ) : ℚ) ^ (53 : ℤ) = (2 : ℚ) ^ (53 : ℕ) := by norm_num
          rw [← h2]
          exact hle
        rw [he]
        rcases abs_eq (by norm_num : (0 : ℚ) ≤ (2 : ℚ) ^ (53 : ℕ)) |>.mp habs with h | h
        · exact ⟨2 ^ 52, by rw [h]; norm_num⟩
        · exact ⟨-2 ^ 52, by rw [h]; norm_num⟩
  obtain ⟨m, hm⟩ := hint
  have hne : (2 : ℚ) ^ ulpExponent (n : ℚ) ≠ 0 := zpow_ne_zero _ (by norm_num)
  have hback : (roundHalfEven ((n : ℚ) / (2 : ℚ) ^ ulpExponent (n : ℚ)) : ℚ) *
      (2 : ℚ) ^ ulpExponent (n : ℚ) = (n : ℚ) := by
    rw [← hm, roundHalfEven_intCast, hm, div_mul_cancel₀ _ hne]
  rw [roundDouble]
  simp only [hback]
  rw [if_neg (not_le.mpr hlt), if_neg (not_le.mpr hgt)]


/-! ## The loops in double arithmetic -/

/-- With a positive stride the inner loop in double arithmetic, started at the
index `j * step` with more fuel than indices left, appends the points of the
remaining indices. -/
theorem innerLoopJs_eq (row : List Int) (step : Nat) (hs : 0 < step) (scaleX scaleY : JsNumber)
    (y : Nat) :
    ∀ (d j fuel : Nat) (points : List JsPoint),
      j + d = (row.length + step - 1) / step → d < fuel →
      innerLoopJs row step scaleX scaleY y fuel (j * step) points =
        some (points ++ ((List.range' j d).map (fun k => k * step)).filterMap
          (rowPointJs row scaleX scaleY y)) := by
  intro d
  induction d with
  | zero =>
    intro j fuel points hj hf
    obtain ⟨f, rfl⟩ : ∃ f, fuel = f + 1 := ⟨fuel - 1, by omega⟩
    have hnot : ¬ j * step < row.length := by
      rw [← stride_lt_iff hs]
      omega
    simp [innerLoopJs, hnot]
  | succ d ih =>
    intro j fuel points hj hf
    obtain ⟨f, rfl⟩ : ∃ f, fuel = f + 1 := ⟨fuel - 1, by omega⟩
    have hlt : j * step < row.length := by
      rw [← stride_lt_iff hs]
      omega
    have hnext : j * step + step = (j + 1) * step := by rw [Nat.add_mul, Nat.one_mul]
    have hget : row.get ⟨j * step, hlt⟩ = row.getD (j * step) 0 := by
      simp [List.getD_eq_getElem?_getD, List.getElem?_eq_getElem hlt]
    rw [innerLoopJs, dif_pos hlt, hget, hnext, List.range'_succ, List.map_cons,
      List.filterMap_cons]
    cases hv : (roundDouble (255 - ((row.getD (j * step) 0 : ℤ) : ℚ))).exceeds 10
    · have hrow : rowPointJs row scaleX scaleY y (j * step) = none := by
        unfold rowPointJs
        simp only [hv]
        rfl
      rw [hrow]
      simp only [hv, Bool.false_eq_true, if_false]
      rw [ih (j + 1) f _ (by omega) (by omega)]
    · have hrow : rowPointJs row scaleX scaleY y (j * step) =
          some { x := (JsNumber.mulIndex (j * step) scaleX).floor,
                 y := (JsNumber.mulIndex y scaleY).floor,
                 value := roundDouble (255 - ((row.getD (j * step) 0 : ℤ) : ℚ)) } := by
        unfold rowPointJs
        simp only [hv]
        rfl
      rw [hrow]
      simp only [hv, if_true]
      rw [ih (j + 1) f _ (by omega) (by omega), List.append_assoc]
      rfl

/-- The inner loop in double arithmetic from `x = 0`. -/
theorem innerLoopJs_zero (row : List Int) (step : Nat) (hs : 0 < step)
    (scaleX scaleY : JsNumber) (y fuel : Nat) (points : List JsPoint)
    (hf : row.length < fuel) :
    innerLoopJs row step scaleX scaleY y fuel 0 points =
      some (points ++ (strideIndices row.length step).filterMap
        (rowPointJs row scaleX scaleY y)) := by
  have hk : (row.length + step - 1) / step ≤ row.length := by
    rw [ceilDiv_le_iff hs]
    exact Nat.le_mul_of_pos_left _ hs
  have h := innerLoopJs_eq row step hs scaleX scaleY y ((row.length + step - 1) / step) 0 fuel
    points (by omega) (by omega)
  rw [Nat.zero_mul] at h
  rw [h, strideIndices, List.range_eq_range']

/-- With a positive stride the outer loop in double arithmetic on a rectangular
matrix, started at the row `j * step` with more fuel than rows left, appends the
points of the remaining rows. -/
theorem outerLoopJs_eq (heatmapMatrix : Matrix) (columnCount step : Nat) (hs : 0 < step)
    (scaleX scaleY : JsNumber) (innerFuel : Nat)
    (hrect : Rectangular heatmapMatrix columnCount) (hin : columnCount < innerFuel) :
    ∀ (d j fuel : Nat) (points : List JsPoint),
      j + d = (heatmapMatrix.length + step - 1) / step → d < fuel →
      outerLoopJs heatmapMatrix step scaleX scaleY innerFuel fuel (j * step) points =
        some (points ++ ((List.range' j d).map (fun k => k * step)).flatMap fun y =>
          (strideIndices columnCount step).filterMap
            (cellPointJs heatmapMatrix scaleX scaleY y)) := by
  intro d
  induction d with
  | zero =>
    intro j fuel points hj hf
    obtain ⟨f, rfl⟩ : ∃ f, fuel = f + 1 := ⟨fuel - 1, by omega⟩
    have hnot : ¬ j * step < heatmapMatrix.length := by
      rw [← stride_lt_iff hs]
      omega
    simp [outerLoopJs, hnot]
  | succ d ih =>
    intro j fuel points hj hf
    obtain ⟨f, rfl⟩ : ∃ f, fuel = f + 1 := ⟨fuel - 1, by omega⟩
    have hlt : j * step < heatmapMatrix.length := by
      rw [← stride_lt_iff hs]
      omega
    have hnext : j * step + step = (j + 1) * step := by rw [Nat.add_mul, Nat.one_mul]
    have hget : heatmapMatrix.get ⟨j * step, hlt⟩ = heatmapMatrix.getD (j * step) [] := by
      simp [List.getD_eq_getElem?_getD, List.getElem?_eq_getElem hlt]
    have hlen : (heatmapMatrix.get ⟨j * step, hlt⟩).length = columnCount :=
      hrect _ (List.get_mem _ _ _)
    rw [outerLoopJs, dif_pos hlt,
      innerLoopJs_zero _ step hs scaleX scaleY _ innerFuel points (by rw [hlen]; exact hin),
      hlen, hget, hnext]
    simp only []
    rw [ih (j + 1) f _ (by omega) (by omega), List.range'_succ, List.map_cons,
      List.flatMap_cons, List.append_assoc]
    rfl

/-- A rectangular matrix with at least one row and one column is sampled in
double arithmetic, with enough fuel and whatever the scale factors, to the
strided scan of the points that the loop body pushes. -/
theorem sampleJs_rectangular (heatmapMatrix : Matrix) (columnCount : Nat)
    (scaleX scaleY : JsNumber) (fuel : Nat)
    (hrows : 0 < heatmapMatrix.length) (hcols : 0 < columnCount)
    (hrect : Rectangular heatmapMatrix columnCount)
    (hfr : heatmapMatrix.length < fuel) (hfc : columnCount < fuel) :
    sampleJs heatmapMatrix scaleX scaleY fuel =
      JsOutcome.ok (stridedScan heatmapMatrix.length columnCount
        (stepOf heatmapMatrix.length columnCount)
        (cellPointJs heatmapMatrix scaleX scaleY)) := by
  have hpos : 0 < stepOf heatmapMatrix.length columnCount :=
    (stepOf_pos_iff _ _).mpr (Nat.mul_pos hrows hcols)
  cases heatmapMatrix with
  | nil => simp at hrows
  | cons row0 rest =>
    have h0len : row0.length = columnCount := hrect row0 (List.mem_cons_self _ _)
    have hk : ((row0 :: rest).length + stepOf (row0 :: rest).length columnCount - 1) /
        stepOf (row0 :: rest).length columnCount ≤ (row0 :: rest).length := by
      rw [ceilDiv_le_iff hpos]
      exact Nat.le_mul_of_pos_left _ hpos
    have h := outerLoopJs_eq (row0 :: rest) columnCount _ hpos scaleX scaleY fuel hrect hfc
      (((row0 :: rest).length + stepOf (row0 :: rest).length columnCount - 1) /
        stepOf (row0 :: rest).length columnCount) 0 fuel [] (by omega) (by omega)
    rw [Nat.zero_mul, List.nil_append, ← List.range_eq_range'] at h
    simp only [sampleJs, h0len, h]
    rfl

/-! ## The sampled points in double arithmetic -/

/-- Zero is a double. -/
theorem roundDouble_zero : roundDouble 0 = JsNumber.finite 0 := by
  simpa using roundDouble_intCast 0 (by norm_num)

/-- One is a double. -/
theorem roundDouble_one : roundDouble 1 = JsNumber.finite 1 := by
  simpa using roundDouble_intCast 1 (by norm_num)

/-- The difference `255 - v` of line 100 is exact for an integer entry with
`|255 - v| ≤ 2^53`. -/
theorem roundDouble_inverted (v : ℤ) (h : |255 - v| ≤ 2 ^ 53) :
    roundDouble (255 - (v : ℚ)) = JsNumber.finite (((255 - v : ℤ)) : ℚ) := by
  have h1 := roundDouble_intCast (255 - v) h
  push_cast at h1 ⊢
  exact h1

/-- Two scans agree when their cells agree inside the grid. -/
theorem stridedScan_congr {α : Type} (rowCount columnCount step : Nat) (hs : 0 < step)
    (cell1 cell2 : Nat → Nat → Option α)
    (h : ∀ y x : Nat, y < rowCount → x < columnCount → cell1 y x = cell2 y x) :
    stridedScan rowCount columnCount step cell1 = stridedScan rowCount columnCount step cell2 := by
  unfold stridedScan
  apply List.flatMap_congr
  intro y hy
  apply List.filterMap_congr
  intro x hx
  exact h y x ((mem_strideIndices hs y).mp hy).1 ((mem_strideIndices hs x).mp hx).1

/-- Membership in a strided scan, for a positive stride. -/
theorem mem_stridedScan {α : Type} (rowCount columnCount step : Nat) (hs : 0 < step)
    (cell : Nat → Nat → Option α) (p : α) :
    p ∈ stridedScan rowCount columnCount step cell ↔
      ∃ y x : Nat, y < rowCount ∧ step ∣ y ∧ x < columnCount ∧ step ∣ x ∧ cell y x = some p := by
  simp only [stridedScan, List.mem_flatMap, List.mem_filterMap, mem_strideIndices hs]
  constructor
  · rintro ⟨y, ⟨hy, hdy⟩, x, ⟨hx, hdx⟩, hp⟩
    exact ⟨y, x, hy, hdy, hx, hdx, hp⟩
  · rintro ⟨y, x, hy, hdy, hx, hdx, hp⟩
    exact ⟨y, ⟨hy, hdy⟩, x, ⟨hx, hdx⟩, hp⟩

/-- The entry `(y, x)` of a rectangular matrix is an entry of one of its rows. -/
theorem getD_getD_mem (heatmapMatrix : Matrix) (columnCount : Nat)
    (hrect : Rectangular heatmapMatrix columnCount) (y x : Nat)
    (hy : y < heatmapMatrix.length) (hx : x < columnCount) :
    ∃ row ∈ heatmapMatrix, (heatmapMatrix.getD y []).getD x 0 ∈ row := by
  have hrow : heatmapMatrix.getD y [] = heatmapMatrix.get ⟨y, hy⟩ := by
    simp [List.getD_eq_getElem?_getD, List.getElem?_eq_getElem hy]
  have hmem : heatmapMatrix.get ⟨y, hy⟩ ∈ heatmapMatrix := List.get_mem _ _ _
  have hlen : x < (heatmapMatrix.get ⟨y, hy⟩).length := by
    rw [hrect _ hmem]
    exact hx
  refine ⟨_, hmem, ?_⟩
  rw [hrow]
  rw [List.getD_eq_getElem _ _ hlen]
  exact List.getElem_mem _

/-- For an entry with `|255 - v| ≤ 2^53` the loop body pushes the point with the
value and the threshold test over the integers. -/
theorem cellPointJs_eq_floor (heatmapMatrix : Matrix) (scaleX scaleY : JsNumber) (y x : Nat)
    (h : |255 - (heatmapMatrix.getD y []).getD x 0| ≤ 2 ^ 53) :
    cellPointJs heatmapMatrix scaleX scaleY y x =
      cellPointFloorJs heatmapMatrix scaleX scaleY y x := by
  unfold cellPointJs rowPointJs cellPointFloorJs
  generalize (heatmapMatrix.getD y []).getD x 0 = v at h
  simp only [roundDouble_inverted v h, JsNumber.exceeds]
  by_cases hv : 255 - v > 10
  · have hq : (10 : ℚ) < (((255 - v : ℤ)) : ℚ) := by exact_mod_cast hv
    rw [if_pos hv, decide_eq_true hq]
    rfl
  · have hq : ¬ (10 : ℚ) < (((255 - v : ℤ)) : ℚ) := by
      intro hlt
      exact hv (by exact_mod_cast hlt)
    rw [if_neg hv, decide_eq_false hq]
    rfl

/-- The value `255` is a double. -/
theorem roundDouble_255 : roundDouble 255 = JsNumber.finite 255 := by
  simpa using roundDouble_intCast 255 (by norm_num)

/-- The double quotient `1 / 3` of line 76. -/
theorem ofQuotient_one_three : JsNumber.ofQuotient 1 3 = JsNumber.finite thirdDouble := by
  have h := roundDouble_of_binade (1 / 3) (-2) 6004799503160661 (by norm_num)
    (by norm_num [abs_of_pos]) (by norm_num [abs_of_pos]) (by norm_num [roundHalfEven])
    (by norm_num) (by norm_num)
  simp only [JsNumber.ofQuotient]
  norm_num [thirdDouble]
  rw [h]
  norm_num

/-- The index `0` times a finite factor. -/
theorem mulIndex_zero (q : ℚ) : JsNumber.mulIndex 0 (JsNumber.finite q) = JsNumber.finite 0 := by
  simp [JsNumber.mulIndex, roundDouble_zero]

/-- The index `1` times the double `1 / 3`. -/
theorem mulIndex_one_third : JsNumber.mulIndex 1 (JsNumber.finite thirdDouble) =
    JsNumber.finite thirdDouble := by
  have h := roundDouble_of_binade thirdDouble (-2) 6004799503160661 (by norm_num)
    (by norm_num [abs_of_pos, thirdDouble]) (by norm_num [abs_of_pos, thirdDouble])
    (by norm_num [roundHalfEven, thirdDouble]) (by norm_num) (by norm_num)
  simp only [JsNumber.mulIndex, Nat.cast_one, one_mul, h]
  norm_num [thirdDouble]

/-- The index `2` times the double `1 / 3`. -/
theorem mulIndex_two_third : JsNumber.mulIndex 2 (JsNumber.finite thirdDouble) =
    JsNumber.finite (2 * thirdDouble) := by
  have h := roundDouble_of_binade (2 * thirdDouble) (-1) 6004799503160661 (by norm_num)
    (by norm_num [abs_of_pos, thirdDouble]) (by norm_num [abs_of_pos, thirdDouble])
    (by norm_num [roundHalfEven, thirdDouble]) (by norm_num) (by norm_num)
  simp only [JsNumber.mulIndex, Nat.cast_ofNat, h]
  norm_num [thirdDouble]

/-- The index `3` times the double `1 / 3` is rounded up to `1`: the exact product
`1 - 2^(-54)` lies half way between two doubles. -/
theorem mulIndex_three_third : JsNumber.mulIndex 3 (JsNumber.finite thirdDouble) =
    JsNumber.finite 1 := by
  have h := roundDouble_of_binade (3 * thirdDouble) (-1) (2 ^ 53) (by norm_num)
    (by norm_num [abs_of_pos, thirdDouble]) (by norm_num [abs_of_pos, thirdDouble])
    (by norm_num [roundHalfEven, thirdDouble]) (by norm_num) (by norm_num)
  simp only [JsNumber.mulIndex, Nat.cast_ofNat, h]
  norm_num

/-- The index `4` times the double `1 / 3` is a double. -/
theorem mulIndex_four_third : JsNumber.mulIndex 4 (JsNumber.finite thirdDouble) =
    JsNumber.finite (4 * thirdDouble) := by
  have h := roundDouble_of_binade (4 * thirdDouble) 0 6004799503160661 (by norm_num)
    (by norm_num [abs_of_pos, thirdDouble]) (by norm_num [abs_of_pos, thirdDouble])
    (by norm_num [roundHalfEven, thirdDouble]) (by norm_num) (by norm_num)
  simp only [JsNumber.mulIndex, Nat.cast_ofNat, h]
  norm_num [thirdDouble]

/-- The index `5` times the double `1 / 3` is rounded down. -/
theorem mulIndex_five_third : JsNumber.mulIndex 5 (JsNumber.finite thirdDouble) =
    JsNumber.finite (7505999378950826 / 4503599627370496) := by
  have h := roundDouble_of_binade (5 * thirdDouble) 0 7505999378950826 (by norm_num)
    (by norm_num [abs_of_pos, thirdDouble]) (by norm_num [abs_of_pos, thirdDouble])
    (by norm_num [roundHalfEven, thirdDouble]) (by norm_num) (by norm_num)
  simp only [JsNumber.mulIndex, Nat.cast_ofNat, h]
  norm_num

/-- The double quotient `2 / 6` of line 76. -/
theorem ofQuotient_two_six : JsNumber.ofQuotient 2 6 = JsNumber.finite thirdDouble := by
  have h := ofQuotient_one_three
  simp only [JsNumber.ofQuotient] at h ⊢
  norm_num at h ⊢
  exact h

/-- C1, as the code has it: on a rectangular matrix with at least one row and one
column whose entries `v` satisfy `|255 - v| ≤ 2^53`, with positive finite scale
factors and enough fuel, the sampling loops hand over exactly the strided scan:
rows `0, step, 2*step, ..` in ascending order, within a row the columns
`0, step, 2*step, ..` in ascending order, keeping the cells with
`255 - M[y][x] > 10`, each mapped to the point with `x = Math.floor(x * scaleX)`
and `y = Math.floor(y * scaleY)`, the products rounded to the nearest double before
the floor, and `value = 255 - M[y][x]`. A point is emitted exactly when it is the
point of such a cell. -/
theorem sampleJs_eq_stridedScan (heatmapMatrix : Matrix) (columnCount : Nat)
    (scaleX scaleY : JsNumber) (fuel : Nat)
    (hrows : 0 < heatmapMatrix.length) (hcols : 0 < columnCount)
    (hrect : Rectangular heatmapMatrix columnCount)
    (hrange : ∀ row ∈ heatmapMatrix, ∀ v ∈ row, |255 - v| ≤ 2 ^ 53)
    (_hx : scaleX.isPositiveFinite = true) (_hy : scaleY.isPositiveFinite = true)
    (hfr : heatmapMatrix.length < fuel) (hfc : columnCount < fuel) :
    sampleJs heatmapMatrix scaleX scaleY fuel =
        JsOutcome.ok (stridedScan heatmapMatrix.length columnCount
          (stepOf heatmapMatrix.length columnCount)
          (cellPointFloorJs heatmapMatrix scaleX scaleY)) ∧
      ∀ p : JsPoint,
        p ∈ stridedScan heatmapMatrix.length columnCount
            (stepOf heatmapMatrix.length columnCount)
            (cellPointFloorJs heatmapMatrix scaleX scaleY) ↔
          ∃ y x : Nat, y < heatmapMatrix.length ∧ stepOf heatmapMatrix.length columnCount ∣ y ∧
            x < columnCount ∧ stepOf heatmapMatrix.length columnCount ∣ x ∧
            255 - (heatmapMatrix.getD y []).getD x 0 > 10 ∧
            p = { x := (JsNumber.mulIndex x scaleX).floor,
                  y := (JsNumber.mulIndex y scaleY).floor,
                  value := JsNumber.finite
                    (((255 - (heatmapMatrix.getD y []).getD x 0 : ℤ)) : ℚ) } := by
  have hpos : 0 < stepOf heatmapMatrix.length columnCount :=
    (stepOf_pos_iff _ _).mpr (Nat.mul_pos hrows hcols)
  constructor
  · rw [sampleJs_rectangular heatmapMatrix columnCount scaleX scaleY fuel hrows hcols hrect
      hfr hfc]
    congr 1
    apply stridedScan_congr _ _ _ hpos
    intro y x hy hx
    obtain ⟨row, hrow, hv⟩ := getD_getD_mem heatmapMatrix columnCount hrect y x hy hx
    exact cellPointJs_eq_floor heatmapMatrix scaleX scaleY y x (hrange row hrow _ hv)
  · intro p
    rw [mem_stridedScan _ _ _ hpos]
    constructor
    · rintro ⟨y, x, hy, hdy, hx, hdx, hp⟩
      refine ⟨y, x, hy, hdy, hx, hdx, ?_⟩
      unfold cellPointFloorJs at hp
      by_cases hv : 255 - (heatmapMatrix.getD y []).getD x 0 > 10
      · simp only [hv, if_true] at hp
        exact ⟨hv, (Option.some.inj hp).symm⟩
      · simp only [hv, if_false] at hp
        cases hp
    · rintro ⟨y, x, hy, hdy, hx, hdx, hv, rfl⟩
      refine ⟨y, x, hy, hdy, hx, hdx, ?_⟩
      unfold cellPointFloorJs
      simp only [hv, if_true]

/-- The run of C1 on `[[0,255],[255,0]]` with scale `(1,1)`: the stride is `1` and
the points are `(0,0,255)` and `(1,1,255)`. -/
theorem sampleJs_eq_stridedScan_witness :
    Rectangular [[0, 255], [255, 0]] 2 ∧
      stepOf 2 2 = 1 ∧
      sampleJs [[0, 255], [255, 0]] (JsNumber.finite 1) (JsNumber.finite 1) 3 =
        JsOutcome.ok
          [{ x := JsNumber.finite 0, y := JsNumber.finite 0, value := JsNumber.finite 255 },
           { x := JsNumber.finite 1, y := JsNumber.finite 1, value := JsNumber.finite 255 }] := by
  have hrect : Rectangular [[0, 255], [255, 0]] 2 := by decide
  refine ⟨hrect, by decide, ?_⟩
  rw [(sampleJs_eq_stridedScan [[0, 255], [255, 0]] 2 (JsNumber.finite 1) (JsNumber.finite 1) 3
    (by decide) (by decide) hrect
    (by
      intro row hrow v hv
      simp at hrow
      rcases hrow with rfl | rfl <;> simp at hv <;> rcases hv with rfl | rfl <;> norm_num)
    (by simp [JsNumber.isPositiveFinite]) (by simp [JsNumber.isPositiveFinite])
    (by decide) (by decide)).1]
  have hstep : stepOf ([[0, 255], [255, 0]] : Matrix).length 2 = 1 := by decide
  rw [hstep]
  norm_num [stridedScan, strideIndices, cellPointFloorJs, List.range_succ, List.filterMap_cons,
    JsNumber.mulIndex, JsNumber.floor, roundDouble_zero, roundDouble_one]

/-- The difference `255 - (-2^53)` of line 100 is rounded up to `2^53 + 256`. -/
theorem roundDouble_inverted_large :
    roundDouble (255 - ((-9007199254740992 : ℤ) : ℚ)) = JsNumber.finite 9007199254741248 := by
  have h := roundDouble_of_binade 9007199254741247 53 4503599627370624 (by norm_num)
    (by norm_num [abs_of_pos]) (by norm_num [abs_of_pos]) (by norm_num [roundHalfEven])
    (by norm_num) (by norm_num)
  have hq : (255 : ℚ) - ((-9007199254740992 : ℤ) : ℚ) = 9007199254741247 := by norm_num
  rw [hq, h]
  norm_num

/-- C1 fails as stated on the code, whose arithmetic is in doubles. For the row
of six zeros of an image six pixels wide that is shown two pixels wide, `scaleX` is
the double `1 / 3` (a positive rational) and the point of column 3 has `x = 1`, the
floor of the rounded product, where `floor (3 * scaleX) = 0`. On the matrix
`[[-2^53]]` the emitted value is `2^53 + 256`, where `255 - M[0][0] = 2^53 + 255`. -/
theorem sampleJs_ne_exact_floor :
    JsNumber.ofQuotient 2 6 = JsNumber.finite thirdDouble ∧ 0 < thirdDouble ∧
      onloadJs [[0, 0, 0, 0, 0, 0]] 2 1 6 1 7 =
        JsOutcome.ok
          [{ x := JsNumber.finite 0, y := JsNumber.finite 0, value := JsNumber.finite 255 },
           { x := JsNumber.finite 0, y := JsNumber.finite 0, value := JsNumber.finite 255 },
           { x := JsNumber.finite 0, y := JsNumber.finite 0, value := JsNumber.finite 255 },
           { x := JsNumber.finite 1, y := JsNumber.finite 0, value := JsNumber.finite 255 },
           { x := JsNumber.finite 1, y := JsNumber.finite 0, value := JsNumber.finite 255 },
           { x := JsNumber.finite 1, y := JsNumber.finite 0, value := JsNumber.finite 255 }] ∧
      (referencePoints [[0, 0, 0, 0, 0, 0]] 6 (stepOf 1 6) thirdDouble 1).map Point.toJs =
          [{ x := JsNumber.finite 0, y := JsNumber.finite 0, value := JsNumber.finite 255 },
           { x := JsNumber.finite 0, y := JsNumber.finite 0, value := JsNumber.finite 255 },
           { x := JsNumber.finite 0, y := JsNumber.finite 0, value := JsNumber.finite 255 },
           { x := JsNumber.finite 0, y := JsNumber.finite 0, value := JsNumber.finite 255 },
           { x := JsNumber.finite 1, y := JsNumber.finite 0, value := JsNumber.finite 255 },
           { x := JsNumber.finite 1, y := JsNumber.finite 0, value := JsNumber.finite 255 }] ∧
      sampleJs [[-9007199254740992]] (JsNumber.finite 1) (JsNumber.finite 1) 2 =
        JsOutcome.ok
          [{ x := JsNumber.finite 0, y := JsNumber.finite 0,
             value := JsNumber.finite 9007199254741248 }] ∧
      (referencePoints [[-9007199254740992]] 1 (stepOf 1 1) 1 1).map Point.toJs =
          [{ x := JsNumber.finite 0, y := JsNumber.finite 0,
             value := JsNumber.finite 9007199254741247 }] := by
  have hstep6 : stepOf 1 6 = 1 := by decide
  have hstep1 : stepOf 1 1 = 1 := by decide
  have hq1 : JsNumber.ofQuotient 1 1 = JsNumber.finite 1 := by
    simp [JsNumber.ofQuotient, roundDouble_one]
  refine ⟨ofQuotient_two_six, by norm_num [thirdDouble], ?_, ?_, ?_, ?_⟩
  · rw [onloadJs, ofQuotient_two_six, hq1,
      sampleJs_rectangular [[0, 0, 0, 0, 0, 0]] 6 _ _ 7 (by decide) (by decide) (by decide)
        (by decide) (by decide)]
    have hlen : ([[0, 0, 0, 0, 0, 0]] : Matrix).length = 1 := rfl
    rw [hlen, hstep6]
    norm_num [stridedScan, strideIndices, cellPointJs, rowPointJs, List.range_succ,
      List.filterMap_cons, roundDouble_255, JsNumber.exceeds, mulIndex_zero,
      mulIndex_one_third, mulIndex_two_third, mulIndex_three_third, mulIndex_four_third,
      mulIndex_five_third, JsNumber.floor]
    norm_num [thirdDouble]
  · rw [hstep6]
    norm_num [referencePoints, strideIndices, cellPoint, rowPoint, List.range_succ,
      List.filterMap_cons, Point.toJs, thirdDouble]
  · rw [sampleJs_rectangular [[-9007199254740992]] 1 _ _ 2 (by decide) (by decide) (by decide)
      (by decide) (by decide)]
    have hlen : ([[-9007199254740992]] : Matrix).length = 1 := rfl
    rw [hlen, hstep1]
    have hval : roundDouble 9007199254741247 = JsNumber.finite 9007199254741248 := by
      have h := roundDouble_inverted_large
      norm_num at h
      exact h
    norm_num [stridedScan, strideIndices, cellPointJs, rowPointJs, List.filterMap_cons, hval,
      JsNumber.exceeds, mulIndex_zero, JsNumber.floor, List.range_succ]
  · rw [hstep1]
    norm_num [referencePoints, strideIndices, cellPoint, rowPoint, List.range_succ,
      List.filterMap_cons, Point.toJs]

/-! ## Scale factors that are not positive and finite -/

/-- The values of the emitted points do not depend on the scale factors. -/
theorem stridedScan_value_independent (heatmapMatrix : Matrix) (rowCount columnCount step : Nat)
    (scaleX scaleY otherX otherY : JsNumber) :
    (stridedScan rowCount columnCount step (cellPointJs heatmapMatrix scaleX scaleY)).map
        JsPoint.value =
      (stridedScan rowCount columnCount step (cellPointJs heatmapMatrix otherX otherY)).map
        JsPoint.value := by
  unfold stridedScan
  rw [List.map_flatMap, List.map_flatMap]
  apply List.flatMap_congr
  intro y _
  rw [List.map_filterMap, List.map_filterMap]
  apply List.filterMap_congr
  intro x _
  unfold cellPointJs rowPointJs
  cases hv : (roundDouble (255 - ((((heatmapMatrix.getD y []).getD x 0 : ℤ)) : ℚ))).exceeds 10
  · simp only [hv, Bool.false_eq_true, if_false]
  · simp only [hv, if_true, Option.map_some']

/-- C7, as the code has it: on a rectangular matrix with at least one row and one
column and a scale pair with a component that is not a positive finite number
(zero, negative, an infinity or `NaN`), no error is raised: with enough fuel the
loops hand over, in row-major order, the point of every sampled cell whose
inverted value exceeds `10`, with the same values as for any other scale pair and
with the coordinates `Math.floor(x * scaleX)`, `Math.floor(y * scaleY)` of double
arithmetic, which are `NaN` or an infinity where the product is. -/
theorem sampleJs_scale_not_positive_finite (heatmapMatrix : Matrix) (columnCount : Nat)
    (scaleX scaleY : JsNumber) (fuel : Nat)
    (hrows : 0 < heatmapMatrix.length) (hcols : 0 < columnCount)
    (hrect : Rectangular heatmapMatrix columnCount)
    (_hscale : scaleX.isPositiveFinite = false ∨ scaleY.isPositiveFinite = false)
    (hfr : heatmapMatrix.length < fuel) (hfc : columnCount < fuel) :
    sampleJs heatmapMatrix scaleX scaleY fuel =
        JsOutcome.ok (stridedScan heatmapMatrix.length columnCount
          (stepOf heatmapMatrix.length columnCount)
          (cellPointJs heatmapMatrix scaleX scaleY)) ∧
      (∀ p : JsPoint,
        p ∈ stridedScan heatmapMatrix.length columnCount
            (stepOf heatmapMatrix.length columnCount)
            (cellPointJs heatmapMatrix scaleX scaleY) ↔
          ∃ y x : Nat, y < heatmapMatrix.length ∧ stepOf heatmapMatrix.length columnCount ∣ y ∧
            x < columnCount ∧ stepOf heatmapMatrix.length columnCount ∣ x ∧
            (roundDouble (255 - ((((heatmapMatrix.getD y []).getD x 0 : ℤ)) : ℚ))).exceeds 10
              = true ∧
            p = { x := (JsNumber.mulIndex x scaleX).floor,
                  y := (JsNumber.mulIndex y scaleY).floor,
                  value := roundDouble
                    (255 - ((((heatmapMatrix.getD y []).getD x 0 : ℤ)) : ℚ)) }) ∧
      ∀ otherX otherY : JsNumber,
        (stridedScan heatmapMatrix.length columnCount (stepOf heatmapMatrix.length columnCount)
            (cellPointJs heatmapMatrix scaleX scaleY)).map JsPoint.value =
          (stridedScan heatmapMatrix.length columnCount (stepOf heatmapMatrix.length columnCount)
            (cellPointJs heatmapMatrix otherX otherY)).map JsPoint.value := by
  have hpos : 0 < stepOf heatmapMatrix.length columnCount :=
    (stepOf_pos_iff _ _).mpr (Nat.mul_pos hrows hcols)
  refine ⟨sampleJs_rectangular heatmapMatrix columnCount scaleX scaleY fuel hrows hcols hrect
    hfr hfc, ?_, fun otherX otherY => stridedScan_value_independent _ _ _ _ _ _ _ _⟩
  intro p
  rw [mem_stridedScan _ _ _ hpos]
  constructor
  · rintro ⟨y, x, hy, hdy, hx, hdx, hp⟩
    refine ⟨y, x, hy, hdy, hx, hdx, ?_⟩
    unfold cellPointJs rowPointJs at hp
    cases hv : (roundDouble (255 - ((((heatmapMatrix.getD y []).getD x 0 : ℤ)) : ℚ))).exceeds 10
    · simp only [hv, Bool.false_eq_true, if_false] at hp
      cases hp
    · simp only [hv, if_true] at hp
      exact ⟨rfl, (Option.some.inj hp).symm⟩
  · rintro ⟨y, x, hy, hdy, hx, hdx, hv, rfl⟩
    refine ⟨y, x, hy, hdy, hx, hdx, ?_⟩
    unfold cellPointJs rowPointJs
    simp only [hv, if_true]

/-- The run of C7 on the 2 x 2 matrix of zeros with scale `(0, 1)`. -/
theorem sampleJs_scale_not_positive_finite_witness :
    Rectangular [[0, 0], [0, 0]] 2 ∧
      ((JsNumber.finite 0).isPositiveFinite = false ∨
        (JsNumber.finite 1).isPositiveFinite = false) ∧
      sampleJs [[0, 0], [0, 0]] (JsNumber.finite 0) (JsNumber.finite 1) 3 =
        JsOutcome.ok (stridedScan ([[0, 0], [0, 0]] : Matrix).length 2
          (stepOf ([[0, 0], [0, 0]] : Matrix).length 2)
          (cellPointJs [[0, 0], [0, 0]] (JsNumber.finite 0) (JsNumber.finite 1))) :=
  have hrect : Rectangular [[0, 0], [0, 0]] 2 := by decide
  have hscale : (JsNumber.finite 0).isPositiveFinite = false ∨
      (JsNumber.finite 1).isPositiveFinite = false :=
    Or.inl (by simp [JsNumber.isPositiveFinite])
  ⟨hrect, hscale,
    (sampleJs_scale_not_positive_finite [[0, 0], [0, 0]] 2 (JsNumber.finite 0)
      (JsNumber.finite 1) 3 (by decide) (by decide) hrect hscale (by decide) (by decide)).1⟩

/-- C7 fails as stated. On the 2 x 2 matrix of zeros with scale `(0, 1)` no error
is raised and four points are handed to the renderer. With a natural width and
height of zero the scale factors of lines 76-77 are `Infinity`, no error is
raised either, and the four points have the coordinates `NaN` and `Infinity`. -/
theorem sampleJs_invalid_scale_emits :
    sampleJs [[0, 0], [0, 0]] (JsNumber.finite 0) (JsNumber.finite 1) 3 =
        JsOutcome.ok
          [{ x := JsNumber.finite 0, y := JsNumber.finite 0, value := JsNumber.finite 255 },
           { x := JsNumber.finite 0, y := JsNumber.finite 0, value := JsNumber.finite 255 },
           { x := JsNumber.finite 0, y := JsNumber.finite 1, value := JsNumber.finite 255 },
           { x := JsNumber.finite 0, y := JsNumber.finite 1, value := JsNumber.finite 255 }] ∧
      JsNumber.ofQuotient 2 0 = JsNumber.posInf ∧
      onloadJs [[0, 0], [0, 0]] 2 2 0 0 3 =
        JsOutcome.ok
          [{ x := JsNumber.nan, y := JsNumber.nan, value := JsNumber.finite 255 },
           { x := JsNumber.posInf, y := JsNumber.nan, value := JsNumber.finite 255 },
           { x := JsNumber.nan, y := JsNumber.posInf, value := JsNumber.finite 255 },
           { x := JsNumber.posInf, y := JsNumber.posInf, value := JsNumber.finite 255 }] := by
  have hstep : stepOf 2 2 = 1 := by decide
  have hlen : ([[0, 0], [0, 0]] : Matrix).length = 2 := rfl
  have hq0 : JsNumber.ofQuotient 2 0 = JsNumber.posInf := by simp [JsNumber.ofQuotient]
  refine ⟨?_, hq0, ?_⟩
  · rw [sampleJs_rectangular [[0, 0], [0, 0]] 2 _ _ 3 (by decide) (by decide) (by decide)
      (by decide) (by decide), hlen, hstep]
    norm_num [stridedScan, strideIndices, cellPointJs, rowPointJs, List.range_succ,
      List.filterMap_cons, roundDouble_255, JsNumber.exceeds, JsNumber.mulIndex,
      roundDouble_zero, roundDouble_one, JsNumber.floor]
  · rw [onloadJs, hq0,
      sampleJs_rectangular [[0, 0], [0, 0]] 2 _ _ 3 (by decide) (by decide) (by decide)
        (by decide) (by decide), hlen, hstep]
    norm_num [stridedScan, strideIndices, cellPointJs, rowPointJs, List.range_succ,
      List.filterMap_cons, roundDouble_255, JsNumber.exceeds, JsNumber.mulIndex,
      roundDouble_zero, roundDouble_one, JsNumber.floor]

/-! ## The two readings -/

/-- On a rectangular matrix whose entries `v` satisfy `|255 - v| ≤ 2^53` the scan
in double arithmetic and the reference list over exact arithmetic keep the same
cells with the same values, whatever the scale factors of either. -/
theorem stridedScan_values_eq_reference (heatmapMatrix : Matrix) (columnCount step : Nat)
    (hs : 0 < step) (hrect : Rectangular heatmapMatrix columnCount)
    (hrange : ∀ row ∈ heatmapMatrix, ∀ v ∈ row, |255 - v| ≤ 2 ^ 53)
    (scaleX scaleY : JsNumber) (exactX exactY : ℚ) :
    (stridedScan heatmapMatrix.length columnCount step
        (cellPointJs heatmapMatrix scaleX scaleY)).map JsPoint.value =
      (referencePoints heatmapMatrix columnCount step exactX exactY).map
        (fun p => JsNumber.finite (p.value : ℚ)) := by
  have hcongr : stridedScan heatmapMatrix.length columnCount step
      (cellPointJs heatmapMatrix scaleX scaleY) =
      stridedScan heatmapMatrix.length columnCount step
        (cellPointFloorJs heatmapMatrix scaleX scaleY) := by
    apply stridedScan_congr _ _ _ hs
    intro y x hy hx
    obtain ⟨row, hrow, hv⟩ := getD_getD_mem heatmapMatrix columnCount hrect y x hy hx
    exact cellPointJs_eq_floor heatmapMatrix scaleX scaleY y x (hrange row hrow _ hv)
  rw [hcongr]
  unfold stridedScan referencePoints
  rw [List.map_flatMap, List.map_flatMap]
  apply List.flatMap_congr
  intro y _
  rw [List.map_filterMap, List.map_filterMap]
  apply List.filterMap_congr
  intro x _
  unfold cellPointFloorJs cellPoint rowPoint
  by_cases hv : 255 - (heatmapMatrix.getD y []).getD x 0 > 10
  · simp only [hv, if_true]
    rfl
  · simp only [hv, if_false]
    rfl

end InertiaHeatmap
